import Mathlib

/-!
Verification of the media-depot job pipeline: a shallow embedding of the
job intake (app/utils/db.py), the download worker (app/workers.py), the
creator upsert and content-addressed asset store (app/utils/db.py), the
resumable downloader and checksum utility (app/utils/download.py),
together with theorems settling the frozen claims about them.
-/

set_option linter.unusedVariables false

namespace MediaDepot

/-- Job statuses, from `app/models/enums.py` (`JobStatus`). -/
inductive JobStatus where
  | pending
  | processing
  | completed
  | failed
  | canceled
deriving DecidableEq, Repr

/-- One structured error record `{type, message, traceback}` appended to a
job's error history by the worker (`app/workers.py`, `error_info`). -/
structure ErrorRecord where
  ty : String
  message : String
  traceback : String
deriving DecidableEq, Repr

/-- The JSONB `error` column of a Job: the worker stores either
`\x7b'error': msg\x7d` (the not-found marker) or `\x7b'attempts': [...]\x7d`
(the retry history). -/
inductive JobError where
  | simple (msg : String)
  | attempts (records : List ErrorRecord)
deriving DecidableEq, Repr

/-- A row of the `jobs` table (`app/models/job.py`). -/
structure Job where
  id : Nat
  shareText : String
  shareUrl : String
  status : JobStatus
  postId : Option Nat
  error : Option JobError
deriving DecidableEq, Repr

/-- The jobs table plus the autoincrement counter for primary keys. -/
structure JobDB where
  jobs : List Job
  nextId : Nat
deriving DecidableEq, Repr

/-- The filter of `get_or_create_job_from_share` (`app/utils/db.py` line 52):
`Job.share_url == share_url` and
`Job.status.in_([pending, processing, completed])`. -/
def jobIntakeMatches (shareUrl : String) (j : Job) : Bool :=
  j.shareUrl == shareUrl &&
    (j.status == .pending || j.status == .processing || j.status == .completed)

/-- `get_or_create_job_from_share` (`app/utils/db.py`): return the first job
matching the intake filter, otherwise insert a fresh pending job. -/
def get_or_create_job_from_share (db : JobDB) (shareText shareUrl : String) :
    Job × JobDB :=
  match db.jobs.find? (jobIntakeMatches shareUrl) with
  | some j => (j, db)
  | none =>
      let j : Job :=
        { id := db.nextId, shareText := shareText, shareUrl := shareUrl,
          status := .pending, postId := none, error := none }
      (j, { jobs := db.jobs ++ [j], nextId := db.nextId + 1 })

/-! ## Worker (`app/workers.py`, `process_download_job`) and the queue's
retry policy (`app/utils/queue.py`, `enqueue_job`).

The behaviour of the platform handler during one execution is abstracted
as a parameter: the handler either is missing, reports the post as
non-existent, raises `NotImplementedError`, raises a transient exception
(network error during load / extract / download), or succeeds. -/

/-- Outcome of the platform handler during one worker execution. -/
inductive HandlerBehavior where
  | noHandler
  | notFound
  | notImplemented
  | transient
  | success (postId : Nat)
deriving DecidableEq, Repr

/-- The Python exception type name recorded by the worker for the failing
behaviours (`type(e).__name__`). -/
def HandlerBehavior.excName : HandlerBehavior → String
  | .noHandler => "ValueError"
  | .notImplemented => "NotImplementedError"
  | .transient => "ReadTimeout"
  | _ => ""

/-- Result of one worker execution: the job's committed state afterwards,
and whether the exception was re-raised to the queue (so RQ retries). -/
structure WorkerResult where
  job : Job
  raised : Bool
deriving DecidableEq, Repr

/-- One execution of `process_download_job` (`app/workers.py`):

* idempotency guard: status `completed` or `failed` returns immediately;
* a `pending` job is committed as `processing`;
* `extract_info() is None` writes the not-found marker and `failed`;
* success commits `post_id` and `completed`;
* on exception the committed state is reloaded, an error record appended
  (`NotImplementedError` overwrites the history and fails immediately
  without re-raising), and the job is failed once
  `len(job.error['attempts']) > settings.JOB_RETRIES`; the exception is
  re-raised so the queue retries. -/
def process_download_job (jobRetries : Nat) (b : HandlerBehavior)
    (job : Job) : WorkerResult :=
  if job.status = .completed ∨ job.status = .failed then
    { job := job, raised := false }
  else
    -- "Mark pending jobs as processing" (committed immediately)
    let job := if job.status = .pending then { job with status := .processing }
               else job
    match b with
    | .success pid =>
        { job := { job with postId := some pid, status := .completed },
          raised := false }
    | .notFound =>
        let failedJob :=
          { job with status := JobStatus.failed,
                     error := some (JobError.simple "Post is non-existent") }
        { job := failedJob, raised := false }
    | behavior =>
        -- exception path: rollback + reload gives back the committed state,
        -- which is `job` (the processing transition was committed)
        let record : ErrorRecord :=
          { ty := behavior.excName, message := "", traceback := "" }
        if behavior = .notImplemented then
          let failedJob :=
            { job with status := JobStatus.failed,
                       error := some (JobError.attempts [record]) }
          { job := failedJob, raised := false }
        else
          let newAttempts :=
            match job.error with
            | some (.attempts l) => l ++ [record]
            | _ => [record]
          let job := { job with error := some (.attempts newAttempts) }
          let job := if newAttempts.length > jobRetries
                     then { job with status := .failed } else job
          { job := job, raised := true }

/-- `k` successive worker executions of the same job. -/
def workerIterate (jobRetries : Nat) (b : HandlerBehavior) (job : Job) :
    Nat → Job
  | 0 => job
  | k + 1 => workerIterate jobRetries b
      (process_download_job jobRetries b job).job k

/-- Number of recorded attempts in a job's error history
(`len(job.error['attempts'])`, `0` when the history is absent). -/
def attemptsCount (j : Job) : Nat :=
  match j.error with
  | some (.attempts l) => l.length
  | _ => 0

/-- The worker committing a status change of one job row into the jobs
table (`job.status = ...; db.commit()` in `app/workers.py`). -/
def commitJobStatus (db : JobDB) (jobId : Nat) (st : JobStatus) : JobDB :=
  let update := fun (j : Job) => if j.id = jobId then { j with status := st } else j
  { db with jobs := db.jobs.map update }

/-- The queue driver from `enqueue_job` (`app/utils/queue.py`):
`Retry(max=settings.JOB_RETRIES, ...)` re-invokes the worker after a raised
exception at most `JOB_RETRIES` times, i.e. at most `JOB_RETRIES + 1`
executions in total; a normal return stops the retries. -/
def runJobWithQueueRetries (jobRetries : Nat) (b : HandlerBehavior)
    (job : Job) : Job :=
  go (jobRetries + 1) job
where
  go : Nat → Job → Job
    | 0, j => j
    | n + 1, j =>
        let r := process_download_job jobRetries b j
        if r.raised then go n r.job else r.job

/-! ## Creator upsert (`app/utils/db.py`, `get_or_create_creator`).

The `creators` table has `UniqueConstraint('platform_id',
'platform_account_id')` (`app/models/creator.py`).  A concurrent worker may
commit rows between our initial query and our flush; those rows are the
`interleaved` parameter, visible to our session's `flush` and to the
re-query after the rollback.  The profile-picture attachment (which only
mutates attributes of the returned row after it durably exists) is outside
the conflict recovery and is not modelled. -/

/-- A row of the `creators` table (the fields the upsert keys on). -/
structure Creator where
  id : Nat
  platformId : Nat
  platformAccountId : String
  username : String
deriving DecidableEq, Repr

/-- The creators table plus the autoincrement counter. -/
structure CreatorDB where
  creators : List Creator
  nextId : Nat
deriving DecidableEq, Repr

/-- The natural-key filter `filter_by(platform_id=..., platform_account_id=...)`. -/
def creatorKeyMatches (platformId : Nat) (accountId : String)
    (c : Creator) : Bool :=
  c.platformId == platformId && c.platformAccountId == accountId

/-- `get_or_create_creator` (`app/utils/db.py`): query by natural key; if
found return the row.  Otherwise insert and flush; the flush raises
`IntegrityError` exactly when a concurrently committed row already holds
the natural key, in which case the failed insert is rolled back, the key
re-queried, and the now-existing row returned — re-raising only if the
re-query finds nothing. -/
def get_or_create_creator (db : CreatorDB) (interleaved : List Creator)
    (platformId : Nat) (accountId : String) (username : String) :
    Except String (Creator × CreatorDB) :=
  match db.creators.find? (creatorKeyMatches platformId accountId) with
  | some c => .ok (c, { db with creators := db.creators ++ interleaved })
  | none =>
      let candidate : Creator :=
        { id := db.nextId, platformId := platformId,
          platformAccountId := accountId, username := username }
      let visible := db.creators ++ interleaved
      if visible.any (creatorKeyMatches platformId accountId) then
        -- IntegrityError on flush: rollback discards our insert, re-query
        match visible.find? (creatorKeyMatches platformId accountId) with
        | some c => .ok (c, { creators := visible, nextId := db.nextId })
        | none => .error "IntegrityError"
      else
        .ok (candidate,
             { creators := visible ++ [candidate], nextId := db.nextId + 1 })

/-! ## Content-addressed asset store (`app/utils/db.py`,
`get_or_create_media_asset`, `link_post_media_asset`) and the path helpers
`to_relative_media_path` / `to_absolute_media_path`.

Paths are modelled as `absolute?` plus a component list; the filesystem is
an association list from paths to byte contents.  The SHA-256 digest of
`hash_file` is an abstract parameter `digest : Content → String`. -/

/-- File contents as a byte list. -/
abbrev Content := List Nat

/-- A filesystem path: `absolute` mirrors `Path.is_absolute()`. -/
structure FPath where
  absolute : Bool
  comps : List String
deriving DecidableEq, Repr

/-- The filesystem visible to the asset store: path → content. -/
abbrev FileSys := List (FPath × Content)

/-- `path.exists()` / content lookup. -/
def fsRead (fs : FileSys) (p : FPath) : Option Content :=
  (fs.find? (fun e => e.1 == p)).map (fun e => e.2)

/-- `path.is_relative_to(root)` (true when `root` is a prefix of `path`,
with matching absoluteness). -/
def pathIsRelativeTo (p root : FPath) : Bool :=
  p.absolute == root.absolute && root.comps.isPrefixOf p.comps

/-- `to_relative_media_path` (`app/utils/db.py`): `path.relative_to(root)`,
returning the path unchanged when that raises `ValueError`. -/
def to_relative_media_path (root p : FPath) : FPath :=
  if pathIsRelativeTo p root then
    { absolute := false, comps := p.comps.drop root.comps.length }
  else p

/-- `to_absolute_media_path` (`app/utils/db.py`): absolute paths pass
through; a relative path already under the (relative) media root that
exists on disk passes through; otherwise the media root is prepended. -/
def to_absolute_media_path (fs : FileSys) (root p : FPath) : FPath :=
  if p.absolute then p
  else if pathIsRelativeTo p root && (fsRead fs p).isSome then p
  else { absolute := root.absolute, comps := root.comps ++ p.comps }

/-- `Path.suffix.lstrip('.')` of the last component: the extension after
the final dot, empty for names without an internal dot. -/
def pathFileFormat (p : FPath) : String :=
  match p.comps.getLast? with
  | none => ""
  | some name =>
      let parts := name.splitOn "."
      if parts.length ≥ 2 && parts.headI ≠ "" then parts.getLastI else ""

/-- A row of the `media_assets` table (`app/models/media_asset.py`). -/
structure MediaAsset where
  id : Nat
  mediaType : String
  url : Option String
  filePath : FPath
  fileFormat : String
  fileSize : Nat
  checksum : String
deriving DecidableEq, Repr

/-- The `MediaAssetCreate` schema fields consumed by the store. -/
structure MediaAssetCreate where
  mediaType : String
  url : Option String
  filePath : FPath
deriving DecidableEq, Repr

/-- The media-assets table plus the autoincrement counter. -/
structure AssetDB where
  assets : List MediaAsset
  nextId : Nat
deriving DecidableEq, Repr

/-- `get_or_create_media_asset` (`app/utils/db.py`): raise
`FileNotFoundError` when the file is missing; otherwise hash and size the
file, then look up an existing row by exact storage path, then by
(checksum, size); insert a new row only when neither matches. -/
def get_or_create_media_asset (digest : Content → String) (fs : FileSys)
    (root : FPath) (db : AssetDB) (info : MediaAssetCreate) :
    Except String (MediaAsset × AssetDB) :=
  let absolutePath := to_absolute_media_path fs root info.filePath
  match fsRead fs absolutePath with
  | none => .error "FileNotFoundError"
  | some content =>
      let fileChecksum := digest content
      let fileSize := content.length
      let relativePath := to_relative_media_path root absolutePath
      let found := (db.assets.find? (fun a => a.filePath == relativePath)).orElse
        (fun _ => db.assets.find?
          (fun a => a.checksum == fileChecksum && a.fileSize == fileSize))
      match found with
      | some a => .ok (a, db)
      | none =>
          let asset : MediaAsset :=
            { id := db.nextId, mediaType := info.mediaType, url := info.url,
              filePath := relativePath,
              fileFormat := pathFileFormat absolutePath,
              fileSize := fileSize, checksum := fileChecksum }
          .ok (asset, { assets := db.assets ++ [asset], nextId := db.nextId + 1 })

/-- A row of the `post_media` association table (`app/models/post_media.py`),
unique on `(post_id, media_asset_id)`. -/
structure PostMedia where
  id : Nat
  postId : Nat
  mediaAssetId : Nat
  position : Nat
deriving DecidableEq, Repr

/-- The post-media table plus the autoincrement counter. -/
structure PostMediaDB where
  links : List PostMedia
  nextId : Nat
deriving DecidableEq, Repr

/-- `link_post_media_asset` (`app/utils/db.py`): return the existing
`(post_id, media_asset_id)` row if present, otherwise insert one. -/
def link_post_media_asset (db : PostMediaDB) (postId mediaAssetId : Nat)
    (position : Nat) : PostMedia × PostMediaDB :=
  match db.links.find?
      (fun pm => pm.postId == postId && pm.mediaAssetId == mediaAssetId) with
  | some pm => (pm, db)
  | none =>
      let pm : PostMedia :=
        { id := db.nextId, postId := postId, mediaAssetId := mediaAssetId,
          position := position }
      (pm, { links := db.links ++ [pm], nextId := db.nextId + 1 })

/-! ## Resumable downloader (`app/utils/download.py`, `download_file`).

The filesystem inside `download_dir` is an association list from filenames
to byte contents.  The server is abstracted per attempt: it can deliver
the whole requested body, fail before the body streams (a rejected probe
or`raise_for_status`), or deliver a proper prefix of the requested body
and then raise a transient error mid-stream.  The server honours byte
ranges (the probe indicated resume support whenever the loop sends one).
The pre-loop probe itself (HEAD, then a 1-byte ranged GET) is summarised
by the `resumeSupported` flag it produces and the filename/extension it
derived. -/

/-- Filesystem of the download directory: filename → content. -/
abbrev DirFS := List (String × Content)

/-- `file_path.exists()` / reading the file's bytes. -/
def dirRead (fs : DirFS) (name : String) : Option Content :=
  (fs.find? (fun e => e.1 == name)).map (fun e => e.2)

/-- Writing a file (mode `wb`, or `ab` with the appended content already
concatenated by the caller). -/
def dirWrite (fs : DirFS) (name : String) (c : Content) : DirFS :=
  (name, c) :: fs.eraseP (fun e => e.1 == name)

/-- `file_path.unlink()`. -/
def dirErase (fs : DirFS) (name : String) : DirFS :=
  fs.eraseP (fun e => e.1 == name)

/-- The characters `sanitize_filename` (`app/utils/helpers.py`) replaces:
filesystem-unsafe and URL-unsafe characters, by code point. -/
def isUnsafeChar (c : Char) : Bool :=
  c.toNat ∈ [60, 62, 58, 34, 47, 92, 124, 63, 42,
              35, 37, 38, 43, 61, 59, 64, 33, 36, 39, 40, 41, 44]

/-- `sanitize_filename` (`app/utils/helpers.py`): replace each unsafe
character with an underscore (code point 95). -/
def sanitize_filename (s : String) : String :=
  String.mk (s.data.map (fun c => if isUnsafeChar c then Char.ofNat 95 else c))

/-- Split a character list on the dot character (code point 46), keeping
empty groups — the semantics of splitting a filename on `.`. -/
def splitOnDot : List Char → List (List Char)
  | [] => [[]]
  | ch :: rest =>
      let r := splitOnDot rest
      if ch = Char.ofNat 46 then [] :: r
      else (ch :: r.headI) :: r.tail

/-- `Path(name).suffix`: the final extension including its dot; empty when
the name has no dot strictly inside it (no leading or trailing dot). -/
def fileSuffix (name : String) : String :=
  let parts := splitOnDot name.data
  if parts.length ≥ 2 && parts.headI ≠ [] && parts.getLastI ≠ [] then
    String.mk (Char.ofNat 46 :: parts.getLastI)
  else ""

/-- `Path(name).stem`: the name with `fileSuffix` removed. -/
def fileStem (name : String) : String :=
  String.mk (name.data.take (name.data.length - (fileSuffix name).data.length))

/-- The candidate filename built in the disambiguation loop:
`f'\x7bstem\x7d_\x7bunique_id\x7d\x7bsuffix\x7d'` with the `k`-th generated
`uuid4().hex[:8]` value. -/
def dlCandidate (finalFilename : String) (uuids : Nat → String) (k : Nat) :
    String :=
  fileStem finalFilename ++ "_" ++ uuids k ++ fileSuffix finalFilename

/-- The `while file_path.exists()` disambiguation loop, with fuel (the
source loops until a fresh name appears; distinct candidates make
`fs.length + 1` tries suffice). -/
def uniquifyPath (fs : DirFS) (finalFilename : String) (uuids : Nat → String) :
    Nat → Nat → String
  | 0, k => dlCandidate finalFilename uuids k
  | fuel + 1, k =>
      let cand := dlCandidate finalFilename uuids k
      if (dirRead fs cand).isSome then uniquifyPath fs finalFilename uuids fuel (k + 1)
      else cand

/-- Server/network behaviour of one attempt of the download loop. -/
inductive AttemptOutcome where
  | success
  | failEarly
  | failMid (delivered : Nat)
deriving DecidableEq, Repr

instance instDecEqExcept {ε α : Type} [DecidableEq ε] [DecidableEq α] :
    DecidableEq (Except ε α) := fun x y =>
  match x, y with
  | .error a, .error b =>
      if h : a = b then isTrue (congrArg Except.error h)
      else isFalse (fun hc => h (Except.error.inj hc))
  | .ok a, .ok b =>
      if h : a = b then isTrue (congrArg Except.ok h)
      else isFalse (fun hc => h (Except.ok.inj hc))
  | .error _, .ok _ => isFalse (fun hc => Except.noConfusion hc)
  | .ok _, .error _ => isFalse (fun hc => Except.noConfusion hc)

/-- Result of `download_file`: final filesystem, returned path or raised
exception, the chosen on-disk path, the number of attempts executed, the
back-off sleeps performed, and per attempt the resume offset of the Range
header sent (`none` = the request started from byte zero). -/
structure DLOut where
  fs : DirFS
  result : Except String String
  path : String
  attemptsMade : Nat
  sleeps : List Nat
  ranges : List (Option Nat)
deriving DecidableEq, Repr

/-- The attempt loop of `download_file` (`app/utils/download.py` lines
423–504).  Per attempt: resume from the partial file's size when resume is
supported, the file exists non-empty and overwrite was not requested;
stream the (remaining) body; on a transient error sleep `2 * 2 ** attempt`
seconds and try again.  When the loop exhausts `max_attempts`, delete the
file if it exists and was created by this call, and re-raise. -/
def dlAttempts (behavior : Nat → AttemptOutcome) (resumeSupported overwrite : Bool)
    (full : Content) (path : String) :
    Nat → Nat → DirFS → List Nat → List (Option Nat) → DLOut
  | 0, idx, fs, sleeps, ranges =>
      -- `file_exists` is False at loop entry on every path of the source,
      -- so the cleanup deletes exactly the file this call wrote
      let fsFinal := if (dirRead fs path).isSome then dirErase fs path else fs
      { fs := fsFinal, result := .error "download failed", path := path,
        attemptsMade := idx, sleeps := sleeps, ranges := ranges }
  | remaining + 1, idx, fs, sleeps, ranges =>
      let currentSize := ((dirRead fs path).map List.length).getD 0
      let resumeFrom :=
        if resumeSupported && (dirRead fs path).isSome && !overwrite &&
            decide (0 < currentSize)
        then currentSize else 0
      let entry : Option Nat := if 0 < resumeFrom then some resumeFrom else none
      let requested := full.drop resumeFrom
      let oldContent := (dirRead fs path).getD []
      match behavior idx with
      | .success =>
          let newContent := if 0 < resumeFrom then oldContent ++ requested
                            else requested
          { fs := dirWrite fs path newContent, result := .ok path, path := path,
            attemptsMade := idx + 1, sleeps := sleeps, ranges := ranges ++ [entry] }
      | .failEarly =>
          dlAttempts behavior resumeSupported overwrite full path
            remaining (idx + 1) fs (sleeps ++ [2 * 2 ^ idx]) (ranges ++ [entry])
      | .failMid delivered =>
          let newContent := (if 0 < resumeFrom then oldContent else []) ++
            requested.take delivered
          dlAttempts behavior resumeSupported overwrite full path
            remaining (idx + 1) (dirWrite fs path newContent)
            (sleeps ++ [2 * 2 ^ idx]) (ranges ++ [entry])

/-- `download_file` (`app/utils/download.py`): sanitize the derived name
(`ValueError` when empty); an existing destination is deleted under
explicit `overwrite`, otherwise disambiguated with a short random suffix;
then the attempt loop runs with `max_attempts = retries if
resume_supported else 1`. -/
def download_file (fs₀ : DirFS) (filename extension : String)
    (overwrite resumeSupported : Bool) (retries : Nat)
    (uuids : Nat → String) (behavior : Nat → AttemptOutcome)
    (full : Content) : DLOut :=
  let finalFilename := sanitize_filename (filename ++ extension)
  if finalFilename = "" then
    { fs := fs₀, result := .error "ValueError", path := "",
      attemptsMade := 0, sleeps := [], ranges := [] }
  else
    let maxAttempts := if resumeSupported then retries else 1
    if (dirRead fs₀ finalFilename).isSome then
      if overwrite then
        dlAttempts behavior resumeSupported overwrite full finalFilename
          maxAttempts 0 (dirErase fs₀ finalFilename) [] []
      else
        let path := uniquifyPath fs₀ finalFilename uuids (fs₀.length + 1) 0
        dlAttempts behavior resumeSupported overwrite full path
          maxAttempts 0 fs₀ [] []
    else
      dlAttempts behavior resumeSupported overwrite full finalFilename
        maxAttempts 0 fs₀ [] []

/-! ## Checksum utility (`app/utils/download.py`, `hash_file`).

The cryptographic digest itself is an abstract parameter `digestOf`.  The
relevant Python object semantics is modelled: `hashlib.sha256` (the value
of `getattr(hashlib, hash_type)`) is a *constructor*; only the hash object
obtained by *calling* it has `update`/`hexdigest`, and accessing those
attributes on the constructor raises `AttributeError`. -/

/-- Supported hash algorithms (`Literal['sha256', 'md5', 'sha1']`). -/
inductive HashType where
  | sha256
  | md5
  | sha1
deriving DecidableEq, Repr

/-- A Python value from the `hashlib` module: the bare constructor
(`hashlib.sha256` itself) or a hash object with the bytes fed so far. -/
inductive PyHashValue where
  | constructor (t : HashType)
  | hashObject (t : HashType) (fed : Content)
deriving DecidableEq, Repr

/-- `v.update(data)`: defined on hash objects, an `AttributeError` on the
bare constructor. -/
def pyUpdate (v : PyHashValue) (data : Content) : Except String PyHashValue :=
  match v with
  | .constructor _ =>
      .error "AttributeError: builtin function object has no attribute update"
  | .hashObject t fed => .ok (.hashObject t (fed ++ data))

/-- `v.hexdigest()`: defined on hash objects, an `AttributeError` on the
bare constructor. -/
def pyHexdigest (digestOf : HashType → Content → String) (v : PyHashValue) :
    Except String String :=
  match v with
  | .constructor _ =>
      .error "AttributeError: builtin function object has no attribute hexdigest"
  | .hashObject t fed => .ok (digestOf t fed)

/-- The `f.read(buffer_size)` loop with fuel (each read of a non-empty
file consumes at least one byte, so `c.length` fuel never runs out). -/
def readChunksAux (b : Nat) : Nat → Content → List Content
  | _, [] => []
  | 0, _ => []
  | fuel + 1, c => c.take b :: readChunksAux b fuel (c.drop b)

/-- The chunks produced by the `f.read(buffer_size)` loop: successive
blocks of `bufferSize` bytes; an empty read (including `buffer_size = 0`)
ends the loop. -/
def readChunks (bufferSize : Nat) (c : Content) : List Content :=
  if bufferSize = 0 then [] else readChunksAux bufferSize c.length c

/-- `hash_file` (`app/utils/download.py`): with `buffer_size=None`,
`hashlib.file_digest(f, hash_type).hexdigest()` digests the whole file;
otherwise `hash_func = getattr(hashlib, hash_type)` binds the bare
constructor and the loop calls `hash_func.update(data)` on it, finishing
with `hash_func.hexdigest()`. -/
def hash_file (digestOf : HashType → Content → String) (content : Content)
    (hashType : HashType) (bufferSize : Option Nat) : Except String String :=
  match bufferSize with
  | none => .ok (digestOf hashType content)
  | some b => do
      let hashFunc := PyHashValue.constructor hashType
      let final ← (readChunks b content).foldlM pyUpdate hashFunc
      pyHexdigest digestOf final

/-- `hash_file` as its docstring intends: the same buffered loop but with
the hash *object* `getattr(hashlib, hash_type)()` (note the call). -/
def hash_file_intended (digestOf : HashType → Content → String)
    (content : Content) (hashType : HashType) (bufferSize : Option Nat) :
    Except String String :=
  match bufferSize with
  | none => .ok (digestOf hashType content)
  | some b => do
      let hashFunc := PyHashValue.hashObject hashType []
      let final ← (readChunks b content).foldlM pyUpdate hashFunc
      pyHexdigest digestOf final

/-! # Theorems -/

/-! ## C10: the buffered checksum path -/

lemma foldlM_pyUpdate_constructor (t : HashType) (c : Content) (l : List Content) :
    (c :: l).foldlM pyUpdate (PyHashValue.constructor t) =
      .error "AttributeError: builtin function object has no attribute update" :=
  rfl

lemma foldlM_pyUpdate_hashObject (t : HashType) :
    ∀ (l : List Content) (fed : Content),
    l.foldlM pyUpdate (PyHashValue.hashObject t fed) =
      .ok (.hashObject t (fed ++ l.flatten)) := by
  intro l
  induction l with
  | nil =>
      intro fed
      simp only [List.foldlM_nil, List.flatten_nil, List.append_nil]
      rfl
  | cons c rest ih =>
      intro fed
      have hstep : (c :: rest).foldlM pyUpdate (PyHashValue.hashObject t fed) =
          rest.foldlM pyUpdate (PyHashValue.hashObject t (fed ++ c)) := rfl
      rw [hstep, ih (fed ++ c), List.flatten_cons, List.append_assoc]

lemma readChunksAux_flatten (b : Nat) (hb : 0 < b) :
    ∀ (fuel : Nat) (c : Content), c.length ≤ fuel →
      (readChunksAux b fuel c).flatten = c := by
  intro fuel
  induction fuel with
  | zero =>
      intro c hc
      have : c = [] := List.eq_nil_of_length_eq_zero (Nat.le_zero.mp hc)
      subst this
      rfl
  | succ fuel ih =>
      intro c hc
      cases c with
      | nil => rfl
      | cons x xs =>
          have hlen : ((x :: xs).drop b).length ≤ fuel := by
            have hdrop : ((x :: xs).drop b).length = (x :: xs).length - b :=
              List.length_drop b (x :: xs)
            have hb1 : 1 ≤ b := hb
            simp only [List.length_cons] at hc hdrop
            omega
          calc (readChunksAux b (fuel + 1) (x :: xs)).flatten
              = (x :: xs).take b ++ (readChunksAux b fuel ((x :: xs).drop b)).flatten := rfl
            _ = (x :: xs).take b ++ (x :: xs).drop b := by rw [ih _ hlen]
            _ = x :: xs := List.take_append_drop b (x :: xs)

lemma readChunks_flatten (b : Nat) (hb : 0 < b) (c : Content) :
    (readChunks b c).flatten = c := by
  unfold readChunks
  rw [if_neg (Nat.pos_iff_ne_zero.mp hb)]
  exact readChunksAux_flatten b hb c.length c (Nat.le_refl _)

/-- Supporting fact: with the missing constructor call added (the
docstring's evident intent), the buffered path agrees with the unbuffered
one for every positive buffer size. -/
theorem hash_file_intended_buffered_eq (digestOf : HashType → Content → String)
    (content : Content) (t : HashType) (b : Nat) (hb : 0 < b) :
    hash_file_intended digestOf content t (some b) =
      hash_file_intended digestOf content t none := by
  simp only [hash_file_intended]
  have h1 := foldlM_pyUpdate_hashObject t (readChunks b content) []
  rw [readChunks_flatten b hb content, List.nil_append] at h1
  rw [h1]
  rfl

/-- C10: the claim that `hash_file(file, hash_type, buffer_size)` equals
`hash_file(file, hash_type, None)` fails on the code: the buffered branch
binds `getattr(hashlib, hash_type)` — the bare constructor — and calling
`update`/`hexdigest` on it raises `AttributeError` for every file and
every buffer size, while the unbuffered branch returns the digest. -/
theorem C10_hash_file_buffered_diverges (digestOf : HashType → Content → String)
    (content : Content) (t : HashType) (b : Nat) :
    (∃ msg, hash_file digestOf content t (some b) = .error msg) ∧
    hash_file digestOf content t none = .ok (digestOf t content) ∧
    hash_file digestOf content t (some b) ≠
      hash_file digestOf content t none := by
  have herr : ∃ msg, hash_file digestOf content t (some b) = .error msg := by
    cases h : readChunks b content with
    | nil =>
        refine ⟨"AttributeError: builtin function object has no attribute hexdigest", ?_⟩
        simp only [hash_file]
        rw [h]
        rfl
    | cons c rest =>
        refine ⟨"AttributeError: builtin function object has no attribute update", ?_⟩
        simp only [hash_file]
        rw [h, foldlM_pyUpdate_constructor t c rest]
        rfl
  refine ⟨herr, rfl, ?_⟩
  rcases herr with ⟨msg, hmsg⟩
  rw [hmsg]
  simp [hash_file]

/-- C10, evaluated at the failing input: a one-byte file hashed with
`buffer_size=1` raises while the unbuffered call succeeds. -/
theorem C10_failing_input_eval :
    hash_file (fun _ _ => "digest") [97] .sha256 (some 1) =
      .error "AttributeError: builtin function object has no attribute update" ∧
    hash_file (fun _ _ => "digest") [97] .sha256 none = .ok "digest" := by
  constructor
  · rfl
  · rfl

/-! ## C4 / C5: job intake -/

lemma jobIntakeMatches_of_url_ne {u : String} {j : Job} (h : j.shareUrl ≠ u) :
    jobIntakeMatches u j = false := by
  simp [jobIntakeMatches, h]

lemma intake_shareUrl_preserved (jobId : Nat) (st : JobStatus) (j : Job) :
    (if j.id = jobId then { j with status := st } else j).shareUrl = j.shareUrl := by
  split <;> rfl

/-- C4: submitting the same share URL a second time while the job from the
first submission is still `pending` — or after the worker has committed it
as `processing` — returns that same job (same id) and appends no Job row. -/
theorem C4_intake_idempotent (db : JobDB) (t t2 t3 u : String)
    (hfresh : ∀ j ∈ db.jobs, j.shareUrl ≠ u) :
    ((get_or_create_job_from_share (get_or_create_job_from_share db t u).2 t2 u).1.id
        = (get_or_create_job_from_share db t u).1.id) ∧
    ((get_or_create_job_from_share (get_or_create_job_from_share db t u).2 t2 u).2
        = (get_or_create_job_from_share db t u).2) ∧
    ((get_or_create_job_from_share db t u).1.status = JobStatus.pending) ∧
    ((get_or_create_job_from_share
        (commitJobStatus (get_or_create_job_from_share db t u).2
          (get_or_create_job_from_share db t u).1.id JobStatus.processing) t3 u).1.id
        = (get_or_create_job_from_share db t u).1.id) ∧
    ((get_or_create_job_from_share
        (commitJobStatus (get_or_create_job_from_share db t u).2
          (get_or_create_job_from_share db t u).1.id JobStatus.processing) t3 u).2
        = commitJobStatus (get_or_create_job_from_share db t u).2
            (get_or_create_job_from_share db t u).1.id JobStatus.processing) := by
  have hfind : db.jobs.find? (jobIntakeMatches u) = none :=
    List.find?_eq_none.mpr (fun j hj => by
      simp [jobIntakeMatches_of_url_ne (hfresh j hj)])
  set nj : Job := { id := db.nextId, shareText := t, shareUrl := u,
                    status := .pending, postId := none, error := none } with hnj
  have h1 : get_or_create_job_from_share db t u =
      (nj, { jobs := db.jobs ++ [nj], nextId := db.nextId + 1 }) := by
    simp [get_or_create_job_from_share, hfind, hnj]
  have hmatch : jobIntakeMatches u nj = true := by simp [jobIntakeMatches, hnj]
  have hfind2 : (db.jobs ++ [nj]).find? (jobIntakeMatches u) = some nj := by
    rw [List.find?_append, hfind]
    simp [List.find?, hmatch]
  have h2 : get_or_create_job_from_share
      { jobs := db.jobs ++ [nj], nextId := db.nextId + 1 } t2 u =
      (nj, { jobs := db.jobs ++ [nj], nextId := db.nextId + 1 }) := by
    simp [get_or_create_job_from_share, hfind2]
  -- the processing stage
  set upd := fun (j : Job) =>
    if j.id = nj.id then { j with status := JobStatus.processing } else j with hupd
  have hcommit : commitJobStatus { jobs := db.jobs ++ [nj], nextId := db.nextId + 1 }
      nj.id JobStatus.processing =
      { jobs := db.jobs.map upd ++ [{ nj with status := JobStatus.processing }],
        nextId := db.nextId + 1 } := by
    simp only [commitJobStatus, List.map_append, List.map_cons, List.map_nil, hupd]
    congr 1
  have hprefixnone : (db.jobs.map upd).find? (jobIntakeMatches u) = none :=
    List.find?_eq_none.mpr (fun x hx => by
      rcases List.mem_map.mp hx with ⟨j, hj, rfl⟩
      have hupd_apply : upd j =
          if j.id = nj.id then { j with status := JobStatus.processing } else j := rfl
      have hurl : (upd j).shareUrl = j.shareUrl := by
        rw [hupd_apply]; exact intake_shareUrl_preserved nj.id JobStatus.processing j
      simp [jobIntakeMatches_of_url_ne (show (upd j).shareUrl ≠ u by
        rw [hurl]; exact hfresh j hj)])
  have hmatch2 : jobIntakeMatches u { nj with status := JobStatus.processing } = true := by
    simp [jobIntakeMatches, hnj]
  have hfind3 : (db.jobs.map upd ++ [{ nj with status := JobStatus.processing }]).find?
      (jobIntakeMatches u) = some { nj with status := JobStatus.processing } := by
    rw [List.find?_append, hprefixnone]
    simp [List.find?, hmatch2]
  have h3 : get_or_create_job_from_share
      { jobs := db.jobs.map upd ++ [{ nj with status := JobStatus.processing }],
        nextId := db.nextId + 1 } t3 u =
      ({ nj with status := JobStatus.processing },
       { jobs := db.jobs.map upd ++ [{ nj with status := JobStatus.processing }],
         nextId := db.nextId + 1 }) := by
    simp [get_or_create_job_from_share, hfind3]
  rw [h1]
  refine ⟨?_, ?_, ?_, ?_, ?_⟩
  · rw [h2]
  · rw [h2]
  · rfl
  · simp only [hcommit, h3]
  · simp only [hcommit, h3]

/-- C4 witness: concrete run from an empty jobs table. -/
theorem C4_intake_idempotent_witness :
    ((get_or_create_job_from_share
        (get_or_create_job_from_share ⟨[], 0⟩ "a" "u").2 "b" "u").1.id
        = (get_or_create_job_from_share ⟨[], 0⟩ "a" "u").1.id) ∧
    ((get_or_create_job_from_share
        (get_or_create_job_from_share ⟨[], 0⟩ "a" "u").2 "b" "u").2
        = (get_or_create_job_from_share ⟨[], 0⟩ "a" "u").2) ∧
    ((get_or_create_job_from_share ⟨[], 0⟩ "a" "u").1.status = JobStatus.pending) ∧
    ((get_or_create_job_from_share
        (commitJobStatus (get_or_create_job_from_share ⟨[], 0⟩ "a" "u").2
          (get_or_create_job_from_share ⟨[], 0⟩ "a" "u").1.id JobStatus.processing) "c" "u").1.id
        = (get_or_create_job_from_share ⟨[], 0⟩ "a" "u").1.id) ∧
    ((get_or_create_job_from_share
        (commitJobStatus (get_or_create_job_from_share ⟨[], 0⟩ "a" "u").2
          (get_or_create_job_from_share ⟨[], 0⟩ "a" "u").1.id JobStatus.processing) "c" "u").2
        = commitJobStatus (get_or_create_job_from_share ⟨[], 0⟩ "a" "u").2
            (get_or_create_job_from_share ⟨[], 0⟩ "a" "u").1.id JobStatus.processing) :=
  C4_intake_idempotent ⟨[], 0⟩ "a" "b" "c" "u" (by simp)

/-- C5 counterexample: a share URL whose only job is `completed` — the
intake filter includes `completed`, so the existing terminal job is
returned and no new row is created, contrary to the claim. -/
theorem C5_counterexample :
    (get_or_create_job_from_share
        ⟨[⟨0, "s", "u", JobStatus.completed, none, none⟩], 1⟩ "s2" "u").2
      = ⟨[⟨0, "s", "u", JobStatus.completed, none, none⟩], 1⟩ ∧
    (get_or_create_job_from_share
        ⟨[⟨0, "s", "u", JobStatus.completed, none, none⟩], 1⟩ "s2" "u").1.status
      = JobStatus.completed ∧
    (get_or_create_job_from_share
        ⟨[⟨0, "s", "u", JobStatus.completed, none, none⟩], 1⟩ "s2" "u").1.id = 0 := by
  refine ⟨?_, ?_, ?_⟩ <;> rfl

/-- C5 amended: the intake get-or-create is keyed by the share URL but
matches `pending`, `processing` *and* `completed`; only when every
existing job for the URL is `failed` or `canceled` does a fresh
submission create a brand-new Job row. -/
theorem C5_amended_new_job_only_after_failed_or_canceled (db : JobDB)
    (t u : String)
    (hterm : ∀ j ∈ db.jobs, j.shareUrl = u →
      j.status = JobStatus.failed ∨ j.status = JobStatus.canceled) :
    (get_or_create_job_from_share db t u).1.id = db.nextId ∧
    (get_or_create_job_from_share db t u).1.status = JobStatus.pending ∧
    (get_or_create_job_from_share db t u).2.jobs =
      db.jobs ++ [(get_or_create_job_from_share db t u).1] := by
  have hfind : db.jobs.find? (jobIntakeMatches u) = none :=
    List.find?_eq_none.mpr (fun j hj => by
      by_cases hurl : j.shareUrl = u
      · rcases hterm j hj hurl with hst | hst <;>
          simp [jobIntakeMatches, hurl, hst]
      · simp [jobIntakeMatches_of_url_ne hurl])
  simp [get_or_create_job_from_share, hfind]

/-- C5 amended witness: a failed job does not block a fresh submission. -/
theorem C5_amended_witness :
    (get_or_create_job_from_share
        ⟨[⟨0, "s", "u", JobStatus.failed, none, none⟩], 7⟩ "x" "u").1.id = 7 ∧
    (get_or_create_job_from_share
        ⟨[⟨0, "s", "u", JobStatus.failed, none, none⟩], 7⟩ "x" "u").1.status
      = JobStatus.pending ∧
    (get_or_create_job_from_share
        ⟨[⟨0, "s", "u", JobStatus.failed, none, none⟩], 7⟩ "x" "u").2.jobs =
      [⟨0, "s", "u", JobStatus.failed, none, none⟩] ++
        [(get_or_create_job_from_share
            ⟨[⟨0, "s", "u", JobStatus.failed, none, none⟩], 7⟩ "x" "u").1] :=
  C5_amended_new_job_only_after_failed_or_canceled
    ⟨[⟨0, "s", "u", JobStatus.failed, none, none⟩], 7⟩ "x" "u" (by decide)

/-! ## C2: the terminal-state guard -/

/-- C2 amended: the worker's idempotency guard covers `completed` and
`failed` (not `canceled`): re-invoking it on such a job returns
immediately with no state change and no re-raise. -/
theorem C2_amended_guard_completed_failed (jobRetries : Nat)
    (b : HandlerBehavior) (job : Job)
    (h : job.status = JobStatus.completed ∨ job.status = JobStatus.failed) :
    process_download_job jobRetries b job = { job := job, raised := false } := by
  unfold process_download_job
  rw [if_pos h]

/-- C2 amended witness: a completed job is untouched. -/
theorem C2_amended_guard_witness :
    process_download_job 3 HandlerBehavior.transient
        ⟨1, "t", "u", JobStatus.completed, none, none⟩ =
      { job := ⟨1, "t", "u", JobStatus.completed, none, none⟩, raised := false } :=
  C2_amended_guard_completed_failed 3 HandlerBehavior.transient
    ⟨1, "t", "u", JobStatus.completed, none, none⟩ (Or.inl rfl)

/-- C2 counterexample: `canceled` is a terminal state
(`app/models/enums.py`) but the guard in `process_download_job` checks only
`(JobStatus.completed, JobStatus.failed)`, so a canceled job is processed —
here all the way to `completed`. -/
theorem C2_counterexample_canceled_not_guarded :
    (process_download_job 3 (HandlerBehavior.success 7)
        ⟨1, "t", "u", JobStatus.canceled, none, none⟩).job.status
      = JobStatus.completed ∧
    JobStatus.completed ≠ JobStatus.canceled := by
  constructor
  · rfl
  · decide

/-! ## C6: adapter reports the post as non-existent -/

/-- C6: when `extract_info()` returns `None`, the worker records the
not-found error, fails the job, and returns normally — so the queue driver
stops after this single execution. -/
theorem C6_not_found_fails_without_retry (jobRetries : Nat) (job : Job)
    (h : job.status = JobStatus.pending ∨ job.status = JobStatus.processing) :
    (process_download_job jobRetries .notFound job).job.status = JobStatus.failed ∧
    (process_download_job jobRetries .notFound job).job.error =
      some (JobError.simple "Post is non-existent") ∧
    (process_download_job jobRetries .notFound job).raised = false ∧
    runJobWithQueueRetries jobRetries .notFound job =
      (process_download_job jobRetries .notFound job).job := by
  rcases h with h | h <;>
    simp [process_download_job, runJobWithQueueRetries, runJobWithQueueRetries.go, h]

/-- C6 witness: a fresh pending Instagram-style job. -/
theorem C6_not_found_witness :
    (process_download_job 3 .notFound ⟨1, "t", "u", JobStatus.pending, none, none⟩).job.status
      = JobStatus.failed ∧
    (process_download_job 3 .notFound ⟨1, "t", "u", JobStatus.pending, none, none⟩).job.error
      = some (JobError.simple "Post is non-existent") ∧
    (process_download_job 3 .notFound ⟨1, "t", "u", JobStatus.pending, none, none⟩).raised
      = false ∧
    runJobWithQueueRetries 3 .notFound ⟨1, "t", "u", JobStatus.pending, none, none⟩ =
      (process_download_job 3 .notFound ⟨1, "t", "u", JobStatus.pending, none, none⟩).job :=
  C6_not_found_fails_without_retry 3
    ⟨1, "t", "u", JobStatus.pending, none, none⟩ (Or.inl rfl)

/-! ## C3: bounded retries under an always-transient adapter -/

/-- One transient execution of a fresh pending job with attempts left: the
job moves to `processing`, one error record is written, re-raised. -/
lemma transient_step_pending_continue (jr : Nat) (job : Job)
    (h0 : job.status = JobStatus.pending) (he : job.error = none)
    (hjr : 1 ≤ jr) :
    process_download_job jr .transient job =
      { job := { job with
          status := JobStatus.processing,
          error := some (JobError.attempts [⟨"ReadTimeout", "", ""⟩]) },
        raised := true } := by
  have hguard : ¬(job.status = JobStatus.completed ∨ job.status = JobStatus.failed) := by
    rw [h0]; simp
  have hcond : ¬(jr < 1) := by omega
  simp [process_download_job, h0, he, hguard, hcond, HandlerBehavior.excName]

/-- One transient execution of a fresh pending job with a zero retry
ceiling: the job is failed immediately with one record, re-raised. -/
lemma transient_step_pending_exhaust (job : Job)
    (h0 : job.status = JobStatus.pending) (he : job.error = none) :
    process_download_job 0 .transient job =
      { job := { job with
          status := JobStatus.failed,
          error := some (JobError.attempts [⟨"ReadTimeout", "", ""⟩]) },
        raised := true } := by
  have hguard : ¬(job.status = JobStatus.completed ∨ job.status = JobStatus.failed) := by
    rw [h0]; simp
  simp [process_download_job, h0, he, hguard, HandlerBehavior.excName]

/-- One transient execution of a processing job whose history is below the
ceiling: one record appended, status stays `processing`, re-raised. -/
lemma transient_step_continue (jr : Nat) (job : Job) (l : List ErrorRecord)
    (hst : job.status = JobStatus.processing)
    (herr : job.error = some (JobError.attempts l))
    (hle : l.length + 1 ≤ jr) :
    process_download_job jr .transient job =
      { job := { job with
          error := some (JobError.attempts (l ++ [⟨"ReadTimeout", "", ""⟩])) },
        raised := true } := by
  have hguard : ¬(job.status = JobStatus.completed ∨ job.status = JobStatus.failed) := by
    rw [hst]; simp
  have hcond : ¬(jr < l.length + 1) := by omega
  simp [process_download_job, hst, herr, hguard, hcond, HandlerBehavior.excName]

/-- One transient execution of a processing job whose history reaches the
ceiling: one record appended and the job is forced to `failed`. -/
lemma transient_step_exhaust (jr : Nat) (job : Job) (l : List ErrorRecord)
    (hst : job.status = JobStatus.processing)
    (herr : job.error = some (JobError.attempts l))
    (hgt : jr < l.length + 1) :
    process_download_job jr .transient job =
      { job := { job with
          status := JobStatus.failed,
          error := some (JobError.attempts (l ++ [⟨"ReadTimeout", "", ""⟩])) },
        raised := true } := by
  have hguard : ¬(job.status = JobStatus.completed ∨ job.status = JobStatus.failed) := by
    rw [hst]; simp
  simp [process_download_job, hst, herr, hguard, hgt, HandlerBehavior.excName]

/-- The queue driver on a processing job whose history, plus the remaining
executions, exactly fills the ceiling: it ends `failed` with `jr + 1`
records. -/
lemma go_transient_failed (jr : Nat) :
    ∀ (n : Nat) (job : Job) (l : List ErrorRecord),
      1 ≤ n →
      job.status = JobStatus.processing →
      job.error = some (JobError.attempts l) →
      l.length + n = jr + 1 →
      (runJobWithQueueRetries.go jr .transient n job).status = JobStatus.failed ∧
      attemptsCount (runJobWithQueueRetries.go jr .transient n job) = jr + 1 := by
  intro n
  induction n with
  | zero => intro job l h1 _ _ _; exact absurd h1 (by omega)
  | succ m ih =>
      intro job l _ hst herr hlen
      by_cases hm : m = 0
      · subst hm
        have hstep := transient_step_exhaust jr job l hst herr (by omega)
        constructor
        · simp [runJobWithQueueRetries.go, hstep]
        · simp [runJobWithQueueRetries.go, hstep, attemptsCount]
          omega
      · have hm1 : 1 ≤ m := Nat.one_le_iff_ne_zero.mpr hm
        have hle : l.length + 1 ≤ jr := by omega
        have hstep := transient_step_continue jr job l hst herr hle
        simp only [runJobWithQueueRetries.go, hstep]
        have hres := ih { job with
            error := some (JobError.attempts (l ++ [⟨"ReadTimeout", "", ""⟩])) }
          (l ++ [⟨"ReadTimeout", "", ""⟩]) hm1 hst rfl
          (by simp only [List.length_append, List.length_cons, List.length_nil]; omega)
        simpa using hres

/-- Repeated worker executions below the ceiling keep the job `processing`
and append one record per execution. -/
lemma workerIterate_transient_processing (jr : Nat) :
    ∀ (k : Nat) (job : Job) (l : List ErrorRecord),
      job.status = JobStatus.processing →
      job.error = some (JobError.attempts l) →
      l.length + k ≤ jr →
      (workerIterate jr .transient job k).status = JobStatus.processing ∧
      attemptsCount (workerIterate jr .transient job k) = l.length + k := by
  intro k
  induction k with
  | zero =>
      intro job l hst herr _
      exact ⟨hst, by simp [workerIterate, attemptsCount, herr]⟩
  | succ m ih =>
      intro job l hst herr hle
      have hstep := transient_step_continue jr job l hst herr (by omega)
      simp only [workerIterate, hstep]
      have hres := ih { job with
          error := some (JobError.attempts (l ++ [⟨"ReadTimeout", "", ""⟩])) }
        (l ++ [⟨"ReadTimeout", "", ""⟩]) hst rfl
        (by simp only [List.length_append, List.length_cons, List.length_nil]; omega)
      rcases hres with ⟨ha, hb⟩
      refine ⟨ha, ?_⟩
      rw [hb]
      simp only [List.length_append, List.length_cons, List.length_nil]
      omega

/-- C3 amended: with an always-transient adapter and the queue policy
`Retry(max=JOB_RETRIES)`, a fresh job reaches `failed` after exactly
`JOB_RETRIES + 1` worker executions, with `JOB_RETRIES + 1` error records
(the job is failed only once the recorded attempts *exceed* the ceiling);
after any `k ≤ JOB_RETRIES` executions it is still `processing` with `k`
records. -/
theorem C3_amended_failed_after_ceiling_plus_one (jr : Nat) (job : Job)
    (h0 : job.status = JobStatus.pending) (he : job.error = none) :
    (runJobWithQueueRetries jr .transient job).status = JobStatus.failed ∧
    attemptsCount (runJobWithQueueRetries jr .transient job) = jr + 1 ∧
    (∀ k, 1 ≤ k → k ≤ jr →
      (workerIterate jr .transient job k).status = JobStatus.processing ∧
      attemptsCount (workerIterate jr .transient job k) = k) := by
  rcases Nat.eq_zero_or_pos jr with hjr | hjr
  · subst hjr
    have hstep := transient_step_pending_exhaust job h0 he
    refine ⟨?_, ?_, ?_⟩
    · simp only [runJobWithQueueRetries, runJobWithQueueRetries.go, hstep]
      rfl
    · simp only [runJobWithQueueRetries, runJobWithQueueRetries.go, hstep]
      rfl
    · intro k hk1 hk0
      exact absurd (Nat.le_trans hk1 hk0) (by omega)
  · have hstep := transient_step_pending_continue jr job h0 he hjr
    have hmain := go_transient_failed jr jr
      { job with status := JobStatus.processing,
                 error := some (JobError.attempts [⟨"ReadTimeout", "", ""⟩]) }
      [⟨"ReadTimeout", "", ""⟩] hjr rfl rfl (by simp [Nat.add_comm])
    have hgo : runJobWithQueueRetries jr .transient job =
        runJobWithQueueRetries.go jr .transient jr
          { job with status := JobStatus.processing,
                     error := some (JobError.attempts [⟨"ReadTimeout", "", ""⟩]) } := by
      have hunfold : runJobWithQueueRetries jr .transient job =
          (let r := process_download_job jr .transient job
           if r.raised then runJobWithQueueRetries.go jr .transient jr r.job
           else r.job) := rfl
      rw [hunfold, hstep]
      rfl
    refine ⟨?_, ?_, ?_⟩
    · rw [hgo]
      exact hmain.1
    · rw [hgo]
      exact hmain.2
    · intro k hk1 hkjr
      rcases Nat.exists_eq_add_of_le hk1 with ⟨m, hm⟩
      subst hm
      have hiter : workerIterate jr .transient job (1 + m) =
          workerIterate jr .transient
            { job with status := JobStatus.processing,
                       error := some (JobError.attempts [⟨"ReadTimeout", "", ""⟩]) } m := by
        have hadd : (1 + m) = m + 1 := by omega
        rw [hadd]
        simp only [workerIterate, hstep]
      rw [hiter]
      have hres := workerIterate_transient_processing jr m
        { job with status := JobStatus.processing,
                   error := some (JobError.attempts [⟨"ReadTimeout", "", ""⟩]) }
        [⟨"ReadTimeout", "", ""⟩] rfl rfl
        (by simpa using hkjr)
      rcases hres with ⟨ha, hb⟩
      refine ⟨ha, ?_⟩
      rw [hb]
      simp

/-- C3 amended witness: with the default `JOB_RETRIES = 3`
(`app/config.py`), a fresh pending job fails after 4 executions with 4
records, and is still `processing` with 2 records after 2 executions. -/
theorem C3_amended_witness :
    (runJobWithQueueRetries 3 .transient
        ⟨1, "t", "u", JobStatus.pending, none, none⟩).status = JobStatus.failed ∧
    attemptsCount (runJobWithQueueRetries 3 .transient
        ⟨1, "t", "u", JobStatus.pending, none, none⟩) = 4 ∧
    (workerIterate 3 .transient
        ⟨1, "t", "u", JobStatus.pending, none, none⟩ 2).status = JobStatus.processing ∧
    attemptsCount (workerIterate 3 .transient
        ⟨1, "t", "u", JobStatus.pending, none, none⟩ 2) = 2 := by
  have h := C3_amended_failed_after_ceiling_plus_one 3
    ⟨1, "t", "u", JobStatus.pending, none, none⟩ rfl rfl
  exact ⟨h.1, h.2.1, (h.2.2 2 (by omega) (by omega)).1, (h.2.2 2 (by omega) (by omega)).2⟩

/-- C3 counterexample: with `JOB_RETRIES = 3`, after exactly 3 worker
executions (the claim's "configured retry ceiling of attempts") the job is
*not* yet `failed` — it is still `processing` with 3 records — and the full
queue-driven run ends with 4 records, not 3. -/
theorem C3_counterexample_off_by_one :
    (workerIterate 3 .transient
        ⟨1, "t", "u", JobStatus.pending, none, none⟩ 3).status = JobStatus.processing ∧
    (workerIterate 3 .transient
        ⟨1, "t", "u", JobStatus.pending, none, none⟩ 3).status ≠ JobStatus.failed ∧
    attemptsCount (workerIterate 3 .transient
        ⟨1, "t", "u", JobStatus.pending, none, none⟩ 3) = 3 ∧
    attemptsCount (runJobWithQueueRetries 3 .transient
        ⟨1, "t", "u", JobStatus.pending, none, none⟩) = 4 := by
  refine ⟨?_, ?_, ?_, ?_⟩ <;> decide

/-! ## C7: race-safe creator upsert -/

/-- C7: when the initial query misses and a concurrent worker has already
committed a row with the same natural key (so our flush raises
`IntegrityError`), `get_or_create_creator` rolls back its insert,
re-queries, and returns `.ok` with the concurrently created row: no error
surfaces, exactly one row with the natural key exists afterwards, and the
caller receives exactly that row. -/
theorem C7_concurrent_upsert_recovers (db : CreatorDB)
    (interleaved : List Creator) (platformId : Nat)
    (accountId username : String) (cOther : Creator)
    (hnone : db.creators.find? (creatorKeyMatches platformId accountId) = none)
    (hint : interleaved.find? (creatorKeyMatches platformId accountId) = some cOther)
    (huniq : (interleaved.filter (creatorKeyMatches platformId accountId)).length = 1) :
    get_or_create_creator db interleaved platformId accountId username =
      .ok (cOther, { creators := db.creators ++ interleaved, nextId := db.nextId }) ∧
    ((db.creators ++ interleaved).filter
        (creatorKeyMatches platformId accountId)).length = 1 ∧
    cOther ∈ db.creators ++ interleaved ∧
    creatorKeyMatches platformId accountId cOther = true := by
  have hkey : creatorKeyMatches platformId accountId cOther = true :=
    List.find?_some hint
  have hmem : cOther ∈ interleaved := List.mem_of_find?_eq_some hint
  have hany : (db.creators ++ interleaved).any
      (creatorKeyMatches platformId accountId) = true := by
    rw [List.any_eq_true]
    exact ⟨cOther, List.mem_append_right _ hmem, hkey⟩
  have hfind : (db.creators ++ interleaved).find?
      (creatorKeyMatches platformId accountId) = some cOther := by
    rw [List.find?_append, hnone, Option.none_or]
    exact hint
  have hfilter : (db.creators.filter (creatorKeyMatches platformId accountId)) = [] := by
    rw [List.filter_eq_nil_iff]
    intro a ha
    have := List.find?_eq_none.mp hnone a ha
    simpa using this
  refine ⟨?_, ?_, List.mem_append_right _ hmem, hkey⟩
  · simp only [get_or_create_creator, hnone, hany, hfind, if_true]
  · rw [List.filter_append, hfilter, List.nil_append]
    exact huniq

/-- C7 witness: an empty table, one concurrently inserted row. -/
theorem C7_concurrent_upsert_witness :
    get_or_create_creator ⟨[], 0⟩ [⟨5, 1, "acc", "bob"⟩] 1 "acc" "alice" =
      .ok (⟨5, 1, "acc", "bob"⟩, { creators := [] ++ [⟨5, 1, "acc", "bob"⟩], nextId := 0 }) ∧
    (([] ++ [(⟨5, 1, "acc", "bob"⟩ : Creator)]).filter
        (creatorKeyMatches 1 "acc")).length = 1 ∧
    (⟨5, 1, "acc", "bob"⟩ : Creator) ∈ [] ++ [(⟨5, 1, "acc", "bob"⟩ : Creator)] ∧
    creatorKeyMatches 1 "acc" ⟨5, 1, "acc", "bob"⟩ = true :=
  C7_concurrent_upsert_recovers ⟨[], 0⟩ [⟨5, 1, "acc", "bob"⟩] 1 "acc" "alice"
    ⟨5, 1, "acc", "bob"⟩ rfl (by decide) (by decide)

/-! ## C1: content-addressed asset store -/

lemma orElse_none {α : Type} (f : Unit → Option α) :
    (none : Option α).orElse f = f () := rfl

lemma orElse_some {α : Type} (a : α) (f : Unit → Option α) :
    (some a : Option α).orElse f = some a := rfl

/-- The storage path the asset store records for a file: relative to the
media root. -/
def assetRelPath (fs : FileSys) (root : FPath) (info : MediaAssetCreate) : FPath :=
  to_relative_media_path root (to_absolute_media_path fs root info.filePath)

/-- C1: the asset store (a) raises when the file is missing on disk;
(b) returns an existing row — and inserts nothing — whenever a row matches
the exact storage path or the (digest, size) pair; (c) inserts exactly one
new row recording digest, size and relative path when neither matches;
(d) hence two different posts referencing byte-identical files stored
under different names yield one `MediaAsset` row and two `PostMedia`
links. -/
theorem C1_asset_store_dedup (digest : Content → String) (fs : FileSys)
    (root : FPath) :
    (∀ (db : AssetDB) (info : MediaAssetCreate),
      fsRead fs (to_absolute_media_path fs root info.filePath) = none →
      get_or_create_media_asset digest fs root db info = .error "FileNotFoundError") ∧
    (∀ (db : AssetDB) (info : MediaAssetCreate) (c : Content),
      fsRead fs (to_absolute_media_path fs root info.filePath) = some c →
      (∃ a ∈ db.assets, a.filePath = assetRelPath fs root info ∨
        (a.checksum = digest c ∧ a.fileSize = c.length)) →
      ∃ a, get_or_create_media_asset digest fs root db info = .ok (a, db) ∧
        a ∈ db.assets ∧
        (a.filePath = assetRelPath fs root info ∨
          (a.checksum = digest c ∧ a.fileSize = c.length))) ∧
    (∀ (db : AssetDB) (info : MediaAssetCreate) (c : Content),
      fsRead fs (to_absolute_media_path fs root info.filePath) = some c →
      (∀ a ∈ db.assets, a.filePath ≠ assetRelPath fs root info ∧
        ¬(a.checksum = digest c ∧ a.fileSize = c.length)) →
      ∃ a, get_or_create_media_asset digest fs root db info =
          .ok (a, { assets := db.assets ++ [a], nextId := db.nextId + 1 }) ∧
        a.checksum = digest c ∧ a.fileSize = c.length ∧
        a.filePath = assetRelPath fs root info ∧ a.id = db.nextId) ∧
    (∀ (info1 info2 : MediaAssetCreate) (c : Content) (p q : Nat),
      fsRead fs (to_absolute_media_path fs root info1.filePath) = some c →
      fsRead fs (to_absolute_media_path fs root info2.filePath) = some c →
      assetRelPath fs root info1 ≠ assetRelPath fs root info2 →
      p ≠ q →
      ∃ a1 db1, get_or_create_media_asset digest fs root ⟨[], 0⟩ info1 = .ok (a1, db1) ∧
        get_or_create_media_asset digest fs root db1 info2 = .ok (a1, db1) ∧
        db1.assets = [a1] ∧
        (link_post_media_asset
          (link_post_media_asset ⟨[], 0⟩ p a1.id 0).2 q a1.id 0).2.links.length = 2) := by
  have hbranch : ∀ (db : AssetDB) (info : MediaAssetCreate) (c : Content),
      fsRead fs (to_absolute_media_path fs root info.filePath) = some c →
      get_or_create_media_asset digest fs root db info =
        (let newA : MediaAsset :=
          { id := db.nextId, mediaType := info.mediaType, url := info.url,
            filePath := to_relative_media_path root
              (to_absolute_media_path fs root info.filePath),
            fileFormat := pathFileFormat (to_absolute_media_path fs root info.filePath),
            fileSize := c.length, checksum := digest c }
         match (db.assets.find? (fun a => a.filePath ==
            to_relative_media_path root (to_absolute_media_path fs root info.filePath))).orElse
          (fun _ => db.assets.find? (fun a => a.checksum == digest c &&
            a.fileSize == c.length)) with
        | some a => .ok (a, db)
        | none => .ok (newA, { assets := db.assets ++ [newA], nextId := db.nextId + 1 })) := by
    intro db info c hread
    simp only [get_or_create_media_asset, hread]
  refine ⟨?_, ?_, ?_, ?_⟩
  · intro db info hread
    simp only [get_or_create_media_asset, hread]
  · intro db info c hread hex
    rw [hbranch db info c hread]
    rcases hfp : db.assets.find? (fun a => a.filePath ==
        to_relative_media_path root (to_absolute_media_path fs root info.filePath)) with _ | a
    · rcases hfc : db.assets.find? (fun a => a.checksum == digest c &&
          a.fileSize == c.length) with _ | a
      · exfalso
        rcases hex with ⟨a, ha, hcase | hcase⟩
        · have := List.find?_eq_none.mp hfp a ha
          simp [assetRelPath] at hcase
          simp [hcase] at this
        · have := List.find?_eq_none.mp hfc a ha
          simp [hcase.1, hcase.2] at this
      · refine ⟨a, ?_, List.mem_of_find?_eq_some hfc, Or.inr ?_⟩
        · rw [hfp, orElse_none, hfc]
        · have := List.find?_some hfc
          simp at this
          exact this
    · refine ⟨a, ?_, List.mem_of_find?_eq_some hfp, Or.inl ?_⟩
      · rw [hfp, orElse_some]
      · have := List.find?_some hfp
        simp [assetRelPath] at this ⊢
        exact this
  · intro db info c hread hno
    rw [hbranch db info c hread]
    have hfp : db.assets.find? (fun a => a.filePath ==
        to_relative_media_path root (to_absolute_media_path fs root info.filePath)) = none :=
      List.find?_eq_none.mpr (fun a ha => by
        have := (hno a ha).1
        simp [assetRelPath] at this
        simp [this])
    have hfc : db.assets.find? (fun a => a.checksum == digest c &&
        a.fileSize == c.length) = none :=
      List.find?_eq_none.mpr (fun a ha => by
        have := (hno a ha).2
        simp only [not_and] at this
        by_cases hck : a.checksum = digest c
        · have := this hck
          simp [hck, this]
        · simp [hck])
    rw [hfp, orElse_none, hfc]
    exact ⟨_, rfl, rfl, rfl, rfl, rfl⟩
  · intro info1 info2 c p q hread1 hread2 hrel hpq
    have hstep1 := hbranch ⟨[], 0⟩ info1 c hread1
    rw [List.find?_nil] at hstep1
    rw [orElse_none, List.find?_nil] at hstep1
    set a1 : MediaAsset :=
      { id := 0, mediaType := info1.mediaType, url := info1.url,
        filePath := to_relative_media_path root (to_absolute_media_path fs root info1.filePath),
        fileFormat := pathFileFormat (to_absolute_media_path fs root info1.filePath),
        fileSize := c.length, checksum := digest c } with ha1
    refine ⟨a1, ⟨[a1], 1⟩, hstep1, ?_, rfl, ?_⟩
    · have hstep2 := hbranch ⟨[a1], 1⟩ info2 c hread2
      have hfp2 : ([a1].find? (fun a => a.filePath ==
          to_relative_media_path root (to_absolute_media_path fs root info2.filePath))) = none := by
        have hne : to_relative_media_path root (to_absolute_media_path fs root info1.filePath) ≠
            to_relative_media_path root (to_absolute_media_path fs root info2.filePath) := by
          simpa [assetRelPath] using hrel
        have hbeq : (to_relative_media_path root (to_absolute_media_path fs root info1.filePath) ==
            to_relative_media_path root (to_absolute_media_path fs root info2.filePath)) = false :=
          beq_eq_false_iff_ne.mpr hne
        simp [List.find?, ha1, hbeq]
      have hfc2 : ([a1].find? (fun a => a.checksum == digest c &&
          a.fileSize == c.length)) = some a1 := by
        simp [List.find?, ha1]
      rw [hfp2, orElse_none, hfc2] at hstep2
      exact hstep2
    · have hl1 : link_post_media_asset ⟨[], 0⟩ p a1.id 0 =
          (⟨0, p, a1.id, 0⟩, ⟨[⟨0, p, a1.id, 0⟩], 1⟩) := by
        simp [link_post_media_asset]
      have hl2 : link_post_media_asset ⟨[⟨0, p, a1.id, 0⟩], 1⟩ q a1.id 0 =
          (⟨1, q, a1.id, 0⟩, ⟨[⟨0, p, a1.id, 0⟩, ⟨1, q, a1.id, 0⟩], 2⟩) := by
        have hne : (p == q) = false := by simp [hpq]
        simp [link_post_media_asset, List.find?, hne]
      rw [hl1]
      rw [hl2]
      rfl

/-- C1 witness: a concrete store with two byte-identical files under
different names; the missing-file branch and the dedup scenario both
evaluated. -/
theorem C1_asset_store_witness :
    get_or_create_media_asset (fun _ => "h")
        [(⟨true, ["media", "video", "a.mp4"]⟩, [1, 2]),
         (⟨true, ["media", "video", "b.mp4"]⟩, [1, 2])]
        ⟨true, ["media"]⟩ ⟨[], 0⟩ ⟨"video", none, ⟨true, ["media", "video", "zz.mp4"]⟩⟩ =
      .error "FileNotFoundError" ∧
    (∃ a1 db1,
      get_or_create_media_asset (fun _ => "h")
          [(⟨true, ["media", "video", "a.mp4"]⟩, [1, 2]),
           (⟨true, ["media", "video", "b.mp4"]⟩, [1, 2])]
          ⟨true, ["media"]⟩ ⟨[], 0⟩ ⟨"video", some "ua", ⟨true, ["media", "video", "a.mp4"]⟩⟩ =
        .ok (a1, db1) ∧
      get_or_create_media_asset (fun _ => "h")
          [(⟨true, ["media", "video", "a.mp4"]⟩, [1, 2]),
           (⟨true, ["media", "video", "b.mp4"]⟩, [1, 2])]
          ⟨true, ["media"]⟩ db1 ⟨"video", none, ⟨true, ["media", "video", "b.mp4"]⟩⟩ =
        .ok (a1, db1) ∧
      db1.assets = [a1] ∧
      (link_post_media_asset
        (link_post_media_asset ⟨[], 0⟩ 1 a1.id 0).2 2 a1.id 0).2.links.length = 2) :=
  ⟨(C1_asset_store_dedup (fun _ => "h")
      [(⟨true, ["media", "video", "a.mp4"]⟩, [1, 2]),
       (⟨true, ["media", "video", "b.mp4"]⟩, [1, 2])]
      ⟨true, ["media"]⟩).1 ⟨[], 0⟩
      ⟨"video", none, ⟨true, ["media", "video", "zz.mp4"]⟩⟩ (by decide),
   (C1_asset_store_dedup (fun _ => "h")
      [(⟨true, ["media", "video", "a.mp4"]⟩, [1, 2]),
       (⟨true, ["media", "video", "b.mp4"]⟩, [1, 2])]
      ⟨true, ["media"]⟩).2.2.2
      ⟨"video", some "ua", ⟨true, ["media", "video", "a.mp4"]⟩⟩
      ⟨"video", none, ⟨true, ["media", "video", "b.mp4"]⟩⟩
      [1, 2] 1 2 (by decide) (by decide) (by decide) (by decide)⟩

/-! ## C8 / C9: the resumable downloader -/

lemma find?_eraseP_key_ne (n m : String) (h : m ≠ n) :
    ∀ fs : DirFS,
      (fs.eraseP (fun e => e.1 == n)).find? (fun e => e.1 == m) =
        fs.find? (fun e => e.1 == m) := by
  intro fs
  induction fs with
  | nil => rfl
  | cons e fs ih =>
      by_cases he : (e.1 == n) = true
      · have hen : e.1 = n := by simpa using he
        have hem : (e.1 == m) = false := by
          apply beq_eq_false_iff_ne.mpr
          rw [hen]
          exact fun hc => h hc.symm
        simp [List.eraseP_cons, he, List.find?, hem]
      · have he' : (e.1 == n) = false := by simpa using he
        by_cases hm : (e.1 == m) = true
        · simp [List.eraseP_cons, he', List.find?, hm]
        · have hm' : (e.1 == m) = false := by simpa using hm
          simp [List.eraseP_cons, he', List.find?, hm', ih]

lemma dirRead_write_self (fs : DirFS) (n : String) (c : Content) :
    dirRead (dirWrite fs n c) n = some c := by
  simp [dirRead, dirWrite, List.find?]

lemma dirRead_write_ne (fs : DirFS) (n m : String) (c : Content) (h : m ≠ n) :
    dirRead (dirWrite fs n c) m = dirRead fs m := by
  have hm : ((n, c).1 == m) = false := by
    apply beq_eq_false_iff_ne.mpr
    exact fun hc => h hc.symm
  simp only [dirRead, dirWrite, List.find?, hm]
  rw [find?_eraseP_key_ne n m h fs]

lemma dirWrite_write (fs : DirFS) (n : String) (c c' : Content) :
    dirWrite (dirWrite fs n c) n c' = dirWrite fs n c' := by
  simp [dirWrite, List.eraseP_cons]

lemma dirRead_none_find?_none (fs : DirFS) (n : String)
    (h : dirRead fs n = none) : fs.find? (fun e => e.1 == n) = none := by
  rcases hx : fs.find? (fun e => e.1 == n) with _ | e
  · exact hx
  · rw [dirRead, hx] at h
    exact absurd h (by simp)

lemma dirErase_of_read_none (fs : DirFS) (n : String)
    (h : dirRead fs n = none) : dirErase fs n = fs := by
  refine List.eraseP_of_forall_not ?_
  intro e he
  have := List.find?_eq_none.mp (dirRead_none_find?_none fs n h) e he
  simpa using this

lemma dirErase_write_of_read_none (fs : DirFS) (n : String) (c : Content)
    (h : dirRead fs n = none) : dirErase (dirWrite fs n c) n = fs := by
  simp only [dirErase, dirWrite, List.eraseP_cons, beq_self_eq_true]
  exact dirErase_of_read_none fs n h

lemma dlAttempts_path (behavior : Nat → AttemptOutcome) (rs ov : Bool)
    (full : Content) (path : String) :
    ∀ (n idx : Nat) (fs : DirFS) (sleeps : List Nat) (ranges : List (Option Nat)),
      (dlAttempts behavior rs ov full path n idx fs sleeps ranges).path = path := by
  intro n
  induction n with
  | zero => intro idx fs sleeps ranges; simp [dlAttempts]
  | succ n ih =>
      intro idx fs sleeps ranges
      cases hb : behavior idx with
      | success => simp [dlAttempts, hb]
      | failEarly => simp only [dlAttempts, hb]; exact ih (idx + 1) fs _ _
      | failMid d => simp only [dlAttempts, hb]; exact ih (idx + 1) _ _ _

lemma dlAttempts_fs_spec (behavior : Nat → AttemptOutcome) (rs ov : Bool)
    (full : Content) (path : String) :
    ∀ (n idx : Nat) (fs₀ fs : DirFS) (sleeps : List Nat) (ranges : List (Option Nat)),
      dirRead fs₀ path = none →
      (fs = fs₀ ∨ ∃ c, fs = dirWrite fs₀ path c) →
      ((dlAttempts behavior rs ov full path n idx fs sleeps ranges).fs = fs₀ ∨
        ∃ c, (dlAttempts behavior rs ov full path n idx fs sleeps ranges).fs =
          dirWrite fs₀ path c) ∧
      ((dlAttempts behavior rs ov full path n idx fs sleeps ranges).result =
          .error "download failed" →
        (dlAttempts behavior rs ov full path n idx fs sleeps ranges).fs = fs₀) := by
  intro n
  induction n with
  | zero =>
      intro idx fs₀ fs sleeps ranges h0 hshape
      rcases hshape with rfl | ⟨c, rfl⟩
      · have hiss : (dirRead fs path).isSome = false := by rw [h0]; rfl
        simp [dlAttempts, hiss]
      · have hiss : (dirRead (dirWrite fs₀ path c) path).isSome = true := by
          rw [dirRead_write_self]; rfl
        have herase := dirErase_write_of_read_none fs₀ path c h0
        simp [dlAttempts, hiss, herase]
  | succ n ih =>
      intro idx fs₀ fs sleeps ranges h0 hshape
      cases hb : behavior idx with
      | success =>
          simp only [dlAttempts, hb]
          constructor
          · rcases hshape with rfl | ⟨c, rfl⟩
            · exact Or.inr ⟨_, rfl⟩
            · exact Or.inr ⟨_, dirWrite_write fs₀ path c _⟩
          · intro hres
            exact absurd hres (by simp)
      | failEarly =>
          simp only [dlAttempts, hb]
          exact ih (idx + 1) fs₀ fs _ _ h0 hshape
      | failMid d =>
          simp only [dlAttempts, hb]
          refine ih (idx + 1) fs₀ _ _ _ h0 ?_
          rcases hshape with rfl | ⟨c, rfl⟩
          · exact Or.inr ⟨_, rfl⟩
          · exact Or.inr ⟨_, dirWrite_write fs₀ path c _⟩

lemma dlAttempts_attempts_le (behavior : Nat → AttemptOutcome) (rs ov : Bool)
    (full : Content) (path : String) :
    ∀ (n idx : Nat) (fs : DirFS) (sleeps : List Nat) (ranges : List (Option Nat)),
      (dlAttempts behavior rs ov full path n idx fs sleeps ranges).attemptsMade ≤
        idx + n := by
  intro n
  induction n with
  | zero => intro idx fs sleeps ranges; simp [dlAttempts]
  | succ n ih =>
      intro idx fs sleeps ranges
      cases hb : behavior idx with
      | success => simp [dlAttempts, hb]
      | failEarly =>
          simp only [dlAttempts, hb]
          exact le_trans (ih _ _ _ _) (by omega)
      | failMid d =>
          simp only [dlAttempts, hb]
          exact le_trans (ih _ _ _ _) (by omega)

lemma dlAttempts_always_fail (behavior : Nat → AttemptOutcome) (rs ov : Bool)
    (full : Content) (path : String)
    (hfail : ∀ i, behavior i ≠ .success) :
    ∀ (n idx : Nat) (fs : DirFS) (sleeps : List Nat) (ranges : List (Option Nat)),
      (dlAttempts behavior rs ov full path n idx fs sleeps ranges).result =
        .error "download failed" ∧
      (dlAttempts behavior rs ov full path n idx fs sleeps ranges).attemptsMade =
        idx + n ∧
      (dlAttempts behavior rs ov full path n idx fs sleeps ranges).sleeps =
        sleeps ++ (List.range' idx n).map (fun i => 2 * 2 ^ i) := by
  intro n
  induction n with
  | zero => intro idx fs sleeps ranges; simp [dlAttempts]
  | succ n ih =>
      intro idx fs sleeps ranges
      cases hb : behavior idx with
      | success => exact absurd hb (hfail idx)
      | failEarly =>
          simp only [dlAttempts, hb]
          rcases ih (idx + 1) fs (sleeps ++ [2 * 2 ^ idx]) _ with ⟨h1, h2, h3⟩
          refine ⟨h1, by omega, ?_⟩
          rw [h3, List.range'_succ, List.map_cons, List.append_assoc]
          rfl
      | failMid d =>
          simp only [dlAttempts, hb]
          rcases ih (idx + 1) _ (sleeps ++ [2 * 2 ^ idx]) _ with ⟨h1, h2, h3⟩
          refine ⟨h1, by omega, ?_⟩
          rw [h3, List.range'_succ, List.map_cons, List.append_assoc]
          rfl

/-- The attempt loop under a server that always delivers `d` bytes and
then fails, with resume supported and no overwrite: attempt `0` sends no
Range header, and every later attempt `i` resumes exactly from the
`i * d` bytes already on disk. -/
lemma dlAttempts_failMid_ranges (d : Nat) (full : Content) (path : String)
    (hd : 0 < d) :
    ∀ (n idx : Nat) (fs : DirFS) (sleeps : List Nat) (ranges : List (Option Nat)),
      (idx + n) * d ≤ full.length →
      (if idx = 0 then dirRead fs path = none
       else dirRead fs path = some (full.take (idx * d))) →
      (dlAttempts (fun _ => .failMid d) true false full path n idx fs sleeps ranges).ranges =
        ranges ++ (List.range' idx n).map (fun i => if i = 0 then none else some (i * d)) := by
  intro n
  induction n with
  | zero => intro idx fs sleeps ranges _ _; simp [dlAttempts]
  | succ n ih =>
      intro idx fs sleeps ranges hbound hinv
      by_cases hidx : idx = 0
      · subst hidx
        rw [if_pos rfl] at hinv
        have hstep : dlAttempts (fun _ => .failMid d) true false full path
            (n + 1) 0 fs sleeps ranges =
            dlAttempts (fun _ => .failMid d) true false full path
              n 1 (dirWrite fs path (full.take d)) (sleeps ++ [2 * 2 ^ 0])
              (ranges ++ [none]) := by
          simp [dlAttempts, hinv]
        rw [hstep]
        have hinv1 : (if (1 : Nat) = 0 then
            dirRead (dirWrite fs path (full.take d)) path = none
          else dirRead (dirWrite fs path (full.take d)) path =
            some (full.take (1 * d))) := by
          rw [if_neg (by omega), dirRead_write_self, Nat.one_mul]
        have hbound1 : (1 + n) * d ≤ full.length := by
          have : (0 + (n + 1)) * d = (1 + n) * d := by ring
          rw [this] at hbound
          exact hbound
        rw [ih 1 _ _ _ hbound1 hinv1]
        rw [List.range'_succ, List.map_cons, if_pos rfl, List.append_assoc]
        rfl
      · rcases Nat.exists_eq_succ_of_ne_zero hidx with ⟨k, rfl⟩
        rw [if_neg hidx] at hinv
        have hlen1 : (k + 1) * d ≤ full.length := by
          refine le_trans ?_ hbound
          exact Nat.mul_le_mul_right d (by omega)
        have hsize : (full.take ((k + 1) * d)).length = (k + 1) * d := by
          rw [List.length_take]
          exact Nat.min_eq_left hlen1
        have hpos : 0 < (k + 1) * d := Nat.mul_pos (Nat.succ_pos k) hd
        have hstep : dlAttempts (fun _ => .failMid d) true false full path
            (n + 1) (k + 1) fs sleeps ranges =
            dlAttempts (fun _ => .failMid d) true false full path
              n (k + 2)
              (dirWrite fs path
                (full.take ((k + 1) * d) ++ (full.drop ((k + 1) * d)).take d))
              (sleeps ++ [2 * 2 ^ (k + 1)])
              (ranges ++ [some ((k + 1) * d)]) := by
          simp [dlAttempts, hinv, hsize, hpos]
        rw [hstep]
        have hcontent : full.take ((k + 1) * d) ++ (full.drop ((k + 1) * d)).take d =
            full.take ((k + 2) * d) := by
          rw [← List.take_add]
          congr 1
          ring
        have hinv2 : (if (k + 2 : Nat) = 0 then
            dirRead (dirWrite fs path
              (full.take ((k + 1) * d) ++ (full.drop ((k + 1) * d)).take d)) path = none
          else dirRead (dirWrite fs path
              (full.take ((k + 1) * d) ++ (full.drop ((k + 1) * d)).take d)) path =
            some (full.take ((k + 2) * d))) := by
          rw [if_neg (by omega), dirRead_write_self, hcontent]
        have hbound2 : (k + 2 + n) * d ≤ full.length := by
          have : (k + 1 + (n + 1)) * d = (k + 2 + n) * d := by ring
          rw [this] at hbound
          exact hbound
        rw [ih (k + 2) _ _ _ hbound2 hinv2]
        rw [List.range'_succ, List.map_cons, if_neg (by omega), List.append_assoc]
        rfl

lemma uniquifyPath_is_candidate (fs : DirFS) (ff : String) (uuids : Nat → String) :
    ∀ (fuel k : Nat), ∃ j, uniquifyPath fs ff uuids fuel k = dlCandidate ff uuids j := by
  intro fuel
  induction fuel with
  | zero => intro k; exact ⟨k, rfl⟩
  | succ fuel ih =>
      intro k
      by_cases hc : (dirRead fs (dlCandidate ff uuids k)).isSome
      · simpa [uniquifyPath, hc] using ih (k + 1)
      · exact ⟨k, by simp [uniquifyPath, hc]⟩

lemma dirRead_isSome_mem_keys (fs : DirFS) (nm : String)
    (h : (dirRead fs nm).isSome) : nm ∈ fs.map Prod.fst := by
  rcases hx : fs.find? (fun e => e.1 == nm) with _ | e
  · rw [dirRead, hx] at h
    simp at h
  · have hmem := List.mem_of_find?_eq_some hx
    have hkey : e.1 = nm := by simpa using List.find?_some hx
    exact hkey ▸ List.mem_map.mpr ⟨e, hmem, rfl⟩

lemma uniquify_exists_fresh (fs : DirFS) (ff : String) (uuids : Nat → String)
    (hdist : ∀ i, i ≤ fs.length → ∀ j, j ≤ fs.length → i ≠ j →
      dlCandidate ff uuids i ≠ dlCandidate ff uuids j) :
    ∃ j, j ≤ fs.length ∧ dirRead fs (dlCandidate ff uuids j) = none := by
  by_contra hc
  push_neg at hc
  have hmem : ∀ j ∈ Finset.range (fs.length + 1),
      dlCandidate ff uuids j ∈ (fs.map Prod.fst).toFinset := by
    intro j hj
    rw [List.mem_toFinset]
    apply dirRead_isSome_mem_keys
    have hjle : j ≤ fs.length := by
      have := Finset.mem_range.mp hj
      omega
    exact Option.isSome_iff_ne_none.mpr (hc j hjle)
  have hinj : Set.InjOn (fun j => dlCandidate ff uuids j)
      (Finset.range (fs.length + 1)) := by
    intro i hi j hj hij
    by_contra hne
    have hile : i ≤ fs.length := by
      have := Finset.mem_range.mp hi
      omega
    have hjle : j ≤ fs.length := by
      have := Finset.mem_range.mp hj
      omega
    exact hdist i hile j hjle hne hij
  have hcard := Finset.card_le_card_of_injOn
    (fun j => dlCandidate ff uuids j) hmem hinj
  rw [Finset.card_range] at hcard
  have h1 : (fs.map Prod.fst).toFinset.card ≤ fs.length := by
    refine le_trans (List.toFinset_card_le _) ?_
    rw [List.length_map]
  omega

/-- The disambiguation loop with fuel `fs.length + 1` finds a name that is
not on disk, provided the candidate names it generates are distinct. -/
lemma uniquify_fresh (fs : DirFS) (ff : String) (uuids : Nat → String)
    (hdist : ∀ i, i ≤ fs.length → ∀ j, j ≤ fs.length → i ≠ j →
      dlCandidate ff uuids i ≠ dlCandidate ff uuids j) :
    dirRead fs (uniquifyPath fs ff uuids (fs.length + 1) 0) = none := by
  have hfind : ∀ (fuel k : Nat),
      (∃ j, k ≤ j ∧ j < k + fuel ∧ dirRead fs (dlCandidate ff uuids j) = none) →
      dirRead fs (uniquifyPath fs ff uuids fuel k) = none := by
    intro fuel
    induction fuel with
    | zero =>
        intro k hj
        rcases hj with ⟨j, h1, h2, _⟩
        omega
    | succ fuel ih =>
        intro k hj
        rcases hj with ⟨j, hkj, hlt, hnone⟩
        by_cases hc : (dirRead fs (dlCandidate ff uuids k)).isSome
        · have hjk : j ≠ k := by
            intro hjeq
            subst hjeq
            rw [hnone] at hc
            simp at hc
          have hout : uniquifyPath fs ff uuids (fuel + 1) k =
              uniquifyPath fs ff uuids fuel (k + 1) := by
            simp [uniquifyPath, hc]
          rw [hout]
          exact ih (k + 1) ⟨j, by omega, by omega, hnone⟩
        · have hout : uniquifyPath fs ff uuids (fuel + 1) k =
              dlCandidate ff uuids k := by
            simp [uniquifyPath, hc]
          rw [hout]
          exact Option.not_isSome_iff_eq_none.mp hc
  rcases uniquify_exists_fresh fs ff uuids hdist with ⟨j, hle, hnone⟩
  exact hfind (fs.length + 1) 0 ⟨j, by omega, by omega, hnone⟩

/-- Branch structure of `download_file` once the sanitized name is
non-empty. -/
lemma download_file_eq (fs₀ : DirFS) (fn ext : String) (ov rs : Bool)
    (retries : Nat) (uuids : Nat → String) (behavior : Nat → AttemptOutcome)
    (full : Content) (hne : sanitize_filename (fn ++ ext) ≠ "") :
    download_file fs₀ fn ext ov rs retries uuids behavior full =
      (if (dirRead fs₀ (sanitize_filename (fn ++ ext))).isSome then
        (if ov then
          dlAttempts behavior rs ov full (sanitize_filename (fn ++ ext))
            (if rs then retries else 1) 0
            (dirErase fs₀ (sanitize_filename (fn ++ ext))) [] []
         else
          dlAttempts behavior rs ov full
            (uniquifyPath fs₀ (sanitize_filename (fn ++ ext)) uuids (fs₀.length + 1) 0)
            (if rs then retries else 1) 0 fs₀ [] [])
       else
        dlAttempts behavior rs ov full (sanitize_filename (fn ++ ext))
          (if rs then retries else 1) 0 fs₀ [] []) := by
  simp only [download_file]
  rw [if_neg hne]

/-- C9: with `overwrite = False`, `download_file` (a) writes only at a
path that did not exist before the call — when the computed name is taken
it moves to a fresh `stem_uuid.ext` candidate instead of overwriting;
(b) leaves every other name's content untouched; (c) when the attempt
loop is exhausted it deletes only the partial file it wrote, restoring
the directory exactly to its initial state. -/
theorem C9_download_never_destroys (fs₀ : DirFS) (fn ext : String) (rs : Bool)
    (retries : Nat) (uuids : Nat → String) (behavior : Nat → AttemptOutcome)
    (full : Content)
    (hne : sanitize_filename (fn ++ ext) ≠ "")
    (hdist : ∀ i, i ≤ fs₀.length → ∀ j, j ≤ fs₀.length → i ≠ j →
      dlCandidate (sanitize_filename (fn ++ ext)) uuids i ≠
        dlCandidate (sanitize_filename (fn ++ ext)) uuids j) :
    dirRead fs₀ (download_file fs₀ fn ext false rs retries uuids behavior full).path
      = none ∧
    (∀ m, m ≠ (download_file fs₀ fn ext false rs retries uuids behavior full).path →
      dirRead (download_file fs₀ fn ext false rs retries uuids behavior full).fs m =
        dirRead fs₀ m) ∧
    ((download_file fs₀ fn ext false rs retries uuids behavior full).result =
        .error "download failed" →
      (download_file fs₀ fn ext false rs retries uuids behavior full).fs = fs₀) ∧
    ((dirRead fs₀ (sanitize_filename (fn ++ ext))).isSome →
      ∃ k, (download_file fs₀ fn ext false rs retries uuids behavior full).path =
        dlCandidate (sanitize_filename (fn ++ ext)) uuids k) := by
  have hdl := download_file_eq fs₀ fn ext false rs retries uuids behavior full hne
  by_cases hex : (dirRead fs₀ (sanitize_filename (fn ++ ext))).isSome = true
  · rw [if_pos hex, if_neg (by simp)] at hdl
    have hfresh : dirRead fs₀
        (uniquifyPath fs₀ (sanitize_filename (fn ++ ext)) uuids (fs₀.length + 1) 0)
        = none := uniquify_fresh fs₀ _ uuids hdist
    have hspec := dlAttempts_fs_spec behavior rs false full
      (uniquifyPath fs₀ (sanitize_filename (fn ++ ext)) uuids (fs₀.length + 1) 0)
      (if rs then retries else 1) 0 fs₀ fs₀ [] [] hfresh (Or.inl rfl)
    have hp := dlAttempts_path behavior rs false full
      (uniquifyPath fs₀ (sanitize_filename (fn ++ ext)) uuids (fs₀.length + 1) 0)
      (if rs then retries else 1) 0 fs₀ [] []
    refine ⟨?_, ?_, ?_, ?_⟩
    · rw [hdl, hp]
      exact hfresh
    · intro m hm
      rw [hdl] at hm ⊢
      rw [hp] at hm
      rcases hspec.1 with hcase | ⟨c, hcase⟩
      · rw [hcase]
      · rw [hcase]
        exact dirRead_write_ne fs₀ _ m c hm
    · intro hres
      rw [hdl] at hres ⊢
      exact hspec.2 hres
    · intro _
      rcases uniquifyPath_is_candidate fs₀ (sanitize_filename (fn ++ ext)) uuids
        (fs₀.length + 1) 0 with ⟨k, hk⟩
      refine ⟨k, ?_⟩
      rw [hdl, hp, hk]
  · rw [if_neg hex] at hdl
    have hfresh : dirRead fs₀ (sanitize_filename (fn ++ ext)) = none :=
      Option.not_isSome_iff_eq_none.mp (by simpa using hex)
    have hspec := dlAttempts_fs_spec behavior rs false full
      (sanitize_filename (fn ++ ext))
      (if rs then retries else 1) 0 fs₀ fs₀ [] [] hfresh (Or.inl rfl)
    have hp := dlAttempts_path behavior rs false full
      (sanitize_filename (fn ++ ext))
      (if rs then retries else 1) 0 fs₀ [] []
    refine ⟨?_, ?_, ?_, ?_⟩
    · rw [hdl, hp]
      exact hfresh
    · intro m hm
      rw [hdl] at hm ⊢
      rw [hp] at hm
      rcases hspec.1 with hcase | ⟨c, hcase⟩
      · rw [hcase]
      · rw [hcase]
        exact dirRead_write_ne fs₀ _ m c hm
    · intro hres
      rw [hdl] at hres ⊢
      exact hspec.2 hres
    · intro hsome
      exact absurd hsome hex

/-- C9 witness: the destination name `a.mp4` is taken; the download (no
resume support, always-failing server) writes under a suffixed candidate,
preserves the pre-existing file, and restores the directory on failure. -/
theorem C9_download_witness :
    dirRead [("a.mp4", [9])]
        (download_file [("a.mp4", [9])] "a" ".mp4" false false 8
          (fun k => if k = 0 then "aa" else "bb")
          (fun _ => AttemptOutcome.failEarly) [1, 2, 3]).path = none ∧
    dirRead (download_file [("a.mp4", [9])] "a" ".mp4" false false 8
          (fun k => if k = 0 then "aa" else "bb")
          (fun _ => AttemptOutcome.failEarly) [1, 2, 3]).fs "a.mp4" =
      dirRead [("a.mp4", [9])] "a.mp4" ∧
    (download_file [("a.mp4", [9])] "a" ".mp4" false false 8
          (fun k => if k = 0 then "aa" else "bb")
          (fun _ => AttemptOutcome.failEarly) [1, 2, 3]).fs = [("a.mp4", [9])] ∧
    ∃ k, (download_file [("a.mp4", [9])] "a" ".mp4" false false 8
          (fun k => if k = 0 then "aa" else "bb")
          (fun _ => AttemptOutcome.failEarly) [1, 2, 3]).path =
      dlCandidate (sanitize_filename ("a" ++ ".mp4"))
        (fun k => if k = 0 then "aa" else "bb") k := by
  have h := C9_download_never_destroys [("a.mp4", [9])] "a" ".mp4" false 8
    (fun k => if k = 0 then "aa" else "bb")
    (fun _ => AttemptOutcome.failEarly) [1, 2, 3] (by decide) (by decide)
  exact ⟨h.1, h.2.1 "a.mp4" (by decide), h.2.2.1 (by decide), h.2.2.2 (by decide)⟩

/-- C8 amended: the byte-level retry loop of `download_file` runs up to
the `retries` parameter attempts *only when the probe indicated resume
support* — `max_attempts = retries if resume_supported else 1`, so without
resume support a transient failure raises after the single attempt with no
retry.  With resume support and an always-failing server it performs
exactly `retries` attempts with exponential back-off `2 * 2 ** attempt`,
and each retry re-requests only the remaining byte range whenever a
non-empty partial file exists (first attempt and empty-file attempts start
from byte zero). -/
theorem C8_amended_retry_policy :
    (∀ (fs₀ : DirFS) (fn ext : String) (ov : Bool) (retries : Nat)
        (uuids : Nat → String) (behavior : Nat → AttemptOutcome) (full : Content),
      (download_file fs₀ fn ext ov false retries uuids behavior full).attemptsMade ≤ 1) ∧
    (∀ (fs₀ : DirFS) (fn ext : String) (ov : Bool) (retries : Nat)
        (uuids : Nat → String) (behavior : Nat → AttemptOutcome) (full : Content),
      sanitize_filename (fn ++ ext) ≠ "" →
      (∀ i, behavior i ≠ AttemptOutcome.success) →
      (download_file fs₀ fn ext ov true retries uuids behavior full).result =
        .error "download failed" ∧
      (download_file fs₀ fn ext ov true retries uuids behavior full).attemptsMade =
        retries ∧
      (download_file fs₀ fn ext ov true retries uuids behavior full).sleeps =
        (List.range retries).map (fun i => 2 * 2 ^ i)) ∧
    (∀ (fs₀ : DirFS) (fn ext : String) (retries d : Nat)
        (uuids : Nat → String) (full : Content),
      0 < d → retries * d ≤ full.length →
      dirRead fs₀ (sanitize_filename (fn ++ ext)) = none →
      sanitize_filename (fn ++ ext) ≠ "" →
      (download_file fs₀ fn ext false true retries uuids
          (fun _ => AttemptOutcome.failMid d) full).ranges =
        (List.range retries).map (fun i => if i = 0 then none else some (i * d))) := by
  refine ⟨?_, ?_, ?_⟩
  · intro fs₀ fn ext ov retries uuids behavior full
    by_cases hne : sanitize_filename (fn ++ ext) = ""
    · simp [download_file, hne]
    · rw [download_file_eq fs₀ fn ext ov false retries uuids behavior full hne]
      have hmax : (if (false : Bool) = true then retries else 1) = 1 := rfl
      rw [hmax]
      by_cases hex : (dirRead fs₀ (sanitize_filename (fn ++ ext))).isSome = true
      · rw [if_pos hex]
        by_cases hov : ov = true
        · rw [if_pos hov]
          exact dlAttempts_attempts_le behavior false ov full _ 1 0 _ [] []
        · rw [if_neg hov]
          exact dlAttempts_attempts_le behavior false ov full _ 1 0 _ [] []
      · rw [if_neg hex]
        exact dlAttempts_attempts_le behavior false ov full _ 1 0 _ [] []
  · intro fs₀ fn ext ov retries uuids behavior full hne hfail
    rw [download_file_eq fs₀ fn ext ov true retries uuids behavior full hne]
    have hmax : (if (true : Bool) = true then retries else 1) = retries := rfl
    rw [hmax]
    have hzero : ∀ (path : String) (fs : DirFS),
        (dlAttempts behavior true ov full path retries 0 fs [] []).result =
          .error "download failed" ∧
        (dlAttempts behavior true ov full path retries 0 fs [] []).attemptsMade =
          retries ∧
        (dlAttempts behavior true ov full path retries 0 fs [] []).sleeps =
          (List.range retries).map (fun i => 2 * 2 ^ i) := by
      intro path fs
      rcases dlAttempts_always_fail behavior true ov full path hfail retries 0 fs [] []
        with ⟨h1, h2, h3⟩
      refine ⟨h1, by omega, ?_⟩
      rw [h3, List.nil_append, List.range_eq_range']
    by_cases hex : (dirRead fs₀ (sanitize_filename (fn ++ ext))).isSome = true
    · rw [if_pos hex]
      by_cases hov : ov = true
      · rw [if_pos hov]
        exact hzero _ _
      · rw [if_neg hov]
        exact hzero _ _
    · rw [if_neg hex]
      exact hzero _ _
  · intro fs₀ fn ext retries d uuids full hd hlen hfresh hne
    rw [download_file_eq fs₀ fn ext false true retries uuids
      (fun _ => AttemptOutcome.failMid d) full hne]
    have hmax : (if (true : Bool) = true then retries else 1) = retries := rfl
    rw [hmax]
    have hex : (dirRead fs₀ (sanitize_filename (fn ++ ext))).isSome = false := by
      rw [hfresh]
      rfl
    rw [if_neg (by rw [hex]; simp)]
    have hres := dlAttempts_failMid_ranges d full (sanitize_filename (fn ++ ext)) hd
      retries 0 fs₀ [] [] (by simpa using hlen) (by rw [if_pos rfl]; exact hfresh)
    rw [hres, List.nil_append, List.range_eq_range']

/-- C8 amended witness: no resume support means a single attempt; with
resume support three failing attempts back off 2, 4, 8 seconds and resume
from 1 then 2 bytes. -/
theorem C8_amended_witness :
    (download_file [] "a" ".mp4" false false 8 (fun _ => "x")
        (fun _ => AttemptOutcome.failEarly) [1, 2, 3]).attemptsMade ≤ 1 ∧
    (download_file [] "a" ".mp4" false true 3 (fun _ => "x")
        (fun _ => AttemptOutcome.failEarly) [1, 2, 3]).attemptsMade = 3 ∧
    (download_file [] "a" ".mp4" false true 3 (fun _ => "x")
        (fun _ => AttemptOutcome.failEarly) [1, 2, 3]).sleeps =
      (List.range 3).map (fun i => 2 * 2 ^ i) ∧
    (download_file [] "a" ".mp4" false true 3 (fun _ => "x")
        (fun _ => AttemptOutcome.failMid 1) [1, 2, 3]).ranges =
      (List.range 3).map (fun i => if i = 0 then none else some (i * 1)) := by
  refine ⟨?_, ?_, ?_, ?_⟩
  · exact C8_amended_retry_policy.1 [] "a" ".mp4" false 8 (fun _ => "x")
      (fun _ => AttemptOutcome.failEarly) [1, 2, 3]
  · exact (C8_amended_retry_policy.2.1 [] "a" ".mp4" false 3 (fun _ => "x")
      (fun _ => AttemptOutcome.failEarly) [1, 2, 3] (by decide)
      (fun _ => (by decide : AttemptOutcome.failEarly ≠ AttemptOutcome.success))).2.1
  · exact (C8_amended_retry_policy.2.1 [] "a" ".mp4" false 3 (fun _ => "x")
      (fun _ => AttemptOutcome.failEarly) [1, 2, 3] (by decide)
      (fun _ => (by decide : AttemptOutcome.failEarly ≠ AttemptOutcome.success))).2.2
  · exact C8_amended_retry_policy.2.2 [] "a" ".mp4" 3 1 (fun _ => "x") [1, 2, 3]
      (by decide) (by decide) (by decide) (by decide)

/-- C8 counterexample: the claim promises byte-level retries with back-off
up to the `retries` parameter for every transient failure, but when the
probe does not indicate resume support `max_attempts = 1`: with
`retries = 8` and a transient failure on the first attempt the function
raises immediately after exactly one attempt — no retry happens. -/
theorem C8_counterexample_no_retry_without_resume :
    (download_file [] "a" ".mp4" false false 8 (fun _ => "x")
        (fun _ => AttemptOutcome.failEarly) [1, 2, 3]).attemptsMade = 1 ∧
    (download_file [] "a" ".mp4" false false 8 (fun _ => "x")
        (fun _ => AttemptOutcome.failEarly) [1, 2, 3]).result =
      .error "download failed" ∧
    (1 : Nat) ≠ 8 := by
  refine ⟨?_, ?_, ?_⟩ <;> decide

end MediaDepot
